import Mathlib

/-!
# Netblock IP ranges data source

A shallow embedding of
`third_party/terraform/data_sources/data_source_google_netblock_ip_ranges.go`.

* Go strings are Lean `String`s.  The library calls the source makes
  (`strings.HasPrefix`, `strings.Replace`, `strings.Split`) only ever take
  ASCII patterns, for which matching on bytes and matching on characters agree
  on UTF-8 text.
* `http.Get` followed by `ioutil.ReadAll` is an oracle with an explicit world
  state: a call takes the world and the URL and gives an outcome and the next
  world.
* The `for len(dnsNetblockList) > 0` loop need not terminate, so it is run with
  a bound on the number of iterations; `none` means that the bound was reached
  before the loop ended.
-/

namespace Netblock

/-! ## The Go string library, as far as the source uses it -/

/-- Split `s` around the leftmost occurrence of `old`: the text before it and
the text after it, or `none` when `old` does not occur in `s`. -/
def cutFirst (old : List Char) : List Char → Option (List Char × List Char)
  | [] => if old = [] then some ([], []) else none
  | c :: cs =>
    if old.isPrefixOf (c :: cs) then some ([], (c :: cs).drop old.length)
    else
      match cutFirst old cs with
      | none => none
      | some (b, a) => some (c :: b, a)

/-- Go `strings.HasPrefix(s, pre)`. -/
def HasPrefix (s pre : String) : Bool :=
  pre.data.isPrefixOf s.data

/-- Replace the first `n` non-overlapping occurrences of a non-empty `old`. -/
def replaceChars (old new : List Char) : Nat → List Char → List Char
  | 0, s => s
  | n + 1, s =>
    match cutFirst old s with
    | none => s
    | some (b, a) => b ++ new ++ replaceChars old new n a

/-- Replacement of the empty pattern: `new` goes in front of the text and after
each character, up to `n` times. -/
def insertChars (new : List Char) : Nat → List Char → List Char
  | 0, s => s
  | _ + 1, [] => new
  | n + 1, c :: cs => new ++ c :: insertChars new n cs

/-- Go `strings.Replace(s, old, new, n)` for `n ≥ 0`. -/
def Replace (s old new : String) (n : Nat) : String :=
  if old.data = [] then ⟨insertChars new.data n s.data⟩
  else ⟨replaceChars old.data new.data n s.data⟩

/-- The loop of Go `genSplit`: cut at the next separator until none is left. -/
def splitChars (sep : List Char) : Nat → List Char → List (List Char)
  | 0, s => [s]
  | n + 1, s =>
    match cutFirst sep s with
    | none => [s]
    | some (b, a) => b :: splitChars sep n a

/-- Go `strings.Split(s, sep)`. -/
def Split (s sep : String) : List String :=
  if sep.data = [] then s.data.map (fun c => String.mk [c])
  else (splitChars sep.data s.data.length s.data).map String.mk

/-! ## The HTTP oracle and `netblock_request` -/

/-- Outcome of `http.Get` followed by `ioutil.ReadAll`. -/
inductive HttpResult where
  | getFailed (err : String)
  | readFailed (err : String)
  | body (text : String)
  deriving DecidableEq, Repr

/-- An HTTP oracle over worlds of type `σ`. -/
abbrev HttpGet (σ : Type) := σ → String → HttpResult × σ

/-- Go `netblock_request`. -/
def netblock_request {σ : Type} (httpGet : HttpGet σ) (w : σ) (name : String) :
    Except String String × σ :=
  match httpGet w ("https://dns.google.com/resolve?name=" ++ name ++ "&type=TXT") with
  | (HttpResult.getFailed err, w') => (Except.error ("Error from _cloud-netblocks: " ++ err), w')
  | (HttpResult.readFailed err, w') =>
    (Except.error ("Error to retrieve the domains list: " ++ err), w')
  | (HttpResult.body text, w') => (Except.ok text, w')

/-! ## `getCidrBlocks` -/

/-- The `map[string][]string` built by `getCidrBlocks`, restricted to the three
keys the source ever uses; a key that was never assigned holds the nil slice. -/
structure CidrMap where
  cidr_blocks : List String
  cidr_blocks_ipv4 : List String
  cidr_blocks_ipv6 : List String
  deriving DecidableEq, Repr

/-- Go `make(map[string][]string)`. -/
def CidrMap.empty : CidrMap := ⟨[], [], []⟩

/-- Body of the first `for _, sp := range splitedResponse` loop (seed record). -/
def seedToken (dnsNetblockList : List String) (sp : String) : List String :=
  if HasPrefix sp "include:" then
    dnsNetblockList ++ [Replace sp "include:" "" 1]
  else dnsNetblockList

/-- Body of the inner `for _, sp := range splitedResponse` loop (queued record),
on the pair of the work queue and the accumulated map. -/
def scanToken (st : List String × CidrMap) (sp : String) : List String × CidrMap :=
  if HasPrefix sp "ip4" then
    let cdrBlock := Replace sp "ip4:" "" 1
    (st.1, { st.2 with
      cidr_blocks_ipv4 := st.2.cidr_blocks_ipv4 ++ [cdrBlock]
      cidr_blocks := st.2.cidr_blocks ++ [cdrBlock] })
  else if HasPrefix sp "ip6" then
    let cdrBlock := Replace sp "ip6:" "" 1
    (st.1, { st.2 with
      cidr_blocks_ipv6 := st.2.cidr_blocks_ipv6 ++ [cdrBlock]
      cidr_blocks := st.2.cidr_blocks ++ [cdrBlock] })
  else if HasPrefix sp "include:" then
    (st.1 ++ [Replace sp "include:" "" 1], st.2)
  else st

/-- The `for len(dnsNetblockList) > 0` loop, run for at most `fuel`
iterations. -/
def queueLoop {σ : Type} (httpGet : HttpGet σ) :
    Nat → σ → List String → CidrMap → Option (Except String CidrMap × σ)
  | _, w, [], cidrBlocks => some (Except.ok cidrBlocks, w)
  | 0, _, _ :: _, _ => none
  | fuel + 1, w, dnsNetblock :: rest, cidrBlocks =>
    match netblock_request httpGet w dnsNetblock with
    | (Except.error err, w') => some (Except.error err, w')
    | (Except.ok response, w') =>
      let st := (Split response " ").foldl scanToken (rest, cidrBlocks)
      queueLoop httpGet fuel w' st.1 st.2

/-- Go `getCidrBlocks`; `Except.error err` stands for `return nil, err`. -/
def getCidrBlocks {σ : Type} (httpGet : HttpGet σ) (fuel : Nat) (w : σ) (netblock : String) :
    Option (Except String CidrMap × σ) :=
  match netblock_request httpGet w netblock with
  | (Except.error err, w') => some (Except.error err, w')
  | (Except.ok response, w') =>
    queueLoop httpGet fuel w' ((Split response " ").foldl seedToken []) CidrMap.empty

/-! ## The resource data and the read operation -/

/-- The part of `schema.ResourceData` the read touches: the configured
`range_type` (if any), the three computed lists (`none` until `d.Set`), and the
identifier (`none` until `d.SetId`). -/
structure ResourceData where
  range_type : Option String
  cidr_blocks : Option (List String)
  cidr_blocks_ipv4 : Option (List String)
  cidr_blocks_ipv6 : Option (List String)
  Id : Option String
  deriving DecidableEq, Repr

/-- Resource data before any read: nothing computed, no identifier. -/
def ResourceData.fresh (range_type : Option String) : ResourceData :=
  ⟨range_type, none, none, none, none⟩

/-- Go `d.Get("range_type").(string)`; the schema gives the default
`"cloud-netblocks"`. -/
def ResourceData.Get_range_type (d : ResourceData) : String :=
  d.range_type.getD "cloud-netblocks"

/-- Go `d.SetId(id)`. -/
def ResourceData.SetId (d : ResourceData) (id : String) : ResourceData :=
  { d with Id := some id }

/-- Go `dataSourceGoogleNetblockIpRangesRead`: the returned error (`none` is
`nil`), the resource data after the call, and the world after the call. -/
def dataSourceGoogleNetblockIpRangesRead {σ : Type} (httpGet : HttpGet σ) (fuel : Nat) (w : σ)
    (d : ResourceData) : Option (Option String × ResourceData × σ) :=
  let rt := d.Get_range_type
  let CidrBlocks := CidrMap.empty
  if rt = "cloud-netblocks" then
    match getCidrBlocks httpGet fuel w "_cloud-netblocks.googleusercontent.com" with
    | none => none
    | some (Except.error err, w') => some (some err, d, w')
    | some (Except.ok CidrBlocks, w') =>
      let d := { d with cidr_blocks := some CidrBlocks.cidr_blocks }
      let d := { d with cidr_blocks_ipv4 := some CidrBlocks.cidr_blocks_ipv4 }
      let d := { d with cidr_blocks_ipv6 := some CidrBlocks.cidr_blocks_ipv6 }
      some (none, d.SetId ("netblock-ip-ranges-" ++ rt), w')
  else if rt = "google-netblocks" then
    match getCidrBlocks httpGet fuel w "_spf.google.com" with
    | none => none
    | some (Except.error err, w') => some (some err, d, w')
    | some (Except.ok CidrBlocks, w') =>
      let d := { d with cidr_blocks := some CidrBlocks.cidr_blocks }
      let d := { d with cidr_blocks_ipv4 := some CidrBlocks.cidr_blocks_ipv4 }
      let d := { d with cidr_blocks_ipv6 := some CidrBlocks.cidr_blocks_ipv6 }
      some (none, d.SetId ("netblock-ip-ranges-" ++ rt), w')
  else if rt = "restricted-googleapis" then
    let CidrBlocks := { CidrBlocks with
      cidr_blocks_ipv4 := CidrBlocks.cidr_blocks_ipv4 ++ ["199.36.153.4/30"] }
    let CidrBlocks := { CidrBlocks with cidr_blocks := CidrBlocks.cidr_blocks_ipv4 }
    let d := { d with cidr_blocks := some CidrBlocks.cidr_blocks }
    let d := { d with cidr_blocks_ipv4 := some CidrBlocks.cidr_blocks_ipv4 }
    some (none, d.SetId ("netblock-ip-ranges-" ++ rt), w)
  else if rt = "dns-forwarders" then
    let CidrBlocks := { CidrBlocks with
      cidr_blocks_ipv4 := CidrBlocks.cidr_blocks_ipv4 ++ ["35.199.192.0/19"] }
    let CidrBlocks := { CidrBlocks with cidr_blocks := CidrBlocks.cidr_blocks_ipv4 }
    let d := { d with cidr_blocks := some CidrBlocks.cidr_blocks }
    let d := { d with cidr_blocks_ipv4 := some CidrBlocks.cidr_blocks_ipv4 }
    some (none, d.SetId ("netblock-ip-ranges-" ++ rt), w)
  else if rt = "iap-forwarders" then
    let CidrBlocks := { CidrBlocks with
      cidr_blocks_ipv4 := CidrBlocks.cidr_blocks_ipv4 ++ ["35.235.240.0/20"] }
    let CidrBlocks := { CidrBlocks with cidr_blocks := CidrBlocks.cidr_blocks_ipv4 }
    let d := { d with cidr_blocks := some CidrBlocks.cidr_blocks }
    let d := { d with cidr_blocks_ipv4 := some CidrBlocks.cidr_blocks_ipv4 }
    some (none, d.SetId ("netblock-ip-ranges-" ++ rt), w)
  else if rt = "health-checkers" then
    let CidrBlocks := { CidrBlocks with
      cidr_blocks_ipv4 := CidrBlocks.cidr_blocks_ipv4 ++ ["35.191.0.0/16"] }
    let CidrBlocks := { CidrBlocks with
      cidr_blocks_ipv4 := CidrBlocks.cidr_blocks_ipv4 ++ ["130.211.0.0/22"] }
    let CidrBlocks := { CidrBlocks with cidr_blocks := CidrBlocks.cidr_blocks_ipv4 }
    let d := { d with cidr_blocks := some CidrBlocks.cidr_blocks }
    let d := { d with cidr_blocks_ipv4 := some CidrBlocks.cidr_blocks_ipv4 }
    some (none, d.SetId ("netblock-ip-ranges-" ++ rt), w)
  else if rt = "legacy-health-checkers" then
    let CidrBlocks := { CidrBlocks with
      cidr_blocks_ipv4 := CidrBlocks.cidr_blocks_ipv4 ++ ["35.191.0.0/16"] }
    let CidrBlocks := { CidrBlocks with
      cidr_blocks_ipv4 := CidrBlocks.cidr_blocks_ipv4 ++ ["209.85.152.0/22"] }
    let CidrBlocks := { CidrBlocks with
      cidr_blocks_ipv4 := CidrBlocks.cidr_blocks_ipv4 ++ ["209.85.204.0/22"] }
    let CidrBlocks := { CidrBlocks with cidr_blocks := CidrBlocks.cidr_blocks_ipv4 }
    let d := { d with cidr_blocks := some CidrBlocks.cidr_blocks }
    let d := { d with cidr_blocks_ipv4 := some CidrBlocks.cidr_blocks_ipv4 }
    some (none, d.SetId ("netblock-ip-ranges-" ++ rt), w)
  else
    some (some ("Unknown range_type: " ++ rt), d, w)

/-! ## Derived notions used in the statements -/

/-- Key-wise concatenation of two maps. -/
def CidrMap.append (a b : CidrMap) : CidrMap :=
  ⟨a.cidr_blocks ++ b.cidr_blocks, a.cidr_blocks_ipv4 ++ b.cidr_blocks_ipv4,
    a.cidr_blocks_ipv6 ++ b.cidr_blocks_ipv6⟩

/-- Put the blocks `acc` in front of the blocks of a returned result. -/
def prependBlocks {σ : Type} (acc : CidrMap) (r : Except String CidrMap × σ) :
    Except String CidrMap × σ :=
  match r with
  | (Except.ok m, w) => (Except.ok (acc.append m), w)
  | (Except.error err, w) => (Except.error err, w)

/-- The names a queued record puts on the work queue: the inner loop run on its
tokens from an empty queue. -/
def recordIncludes (response : String) : List String :=
  ((Split response " ").foldl scanToken ([], CidrMap.empty)).1

/-- The blocks a queued record contributes: the inner loop run on its tokens
from an empty map. -/
def recordBlocks (response : String) : CidrMap :=
  ((Split response " ").foldl scanToken ([], CidrMap.empty)).2

/-- The block a single token of a queued record contributes, if any. -/
def tokenBlock (sp : String) : Option String :=
  if HasPrefix sp "ip4" then some (Replace sp "ip4:" "" 1)
  else if HasPrefix sp "ip6" then some (Replace sp "ip6:" "" 1)
  else none

/-- Whether a token starts with `include:`. -/
def isInclude (sp : String) : Bool := HasPrefix sp "include:"

/-- The sequence of `include:`-prefixed tokens of a record. -/
def includeTokens (response : String) : List String :=
  (Split response " ").filter isInclude

/-- What `netblock_request` makes of an HTTP outcome. -/
def HttpResult.toExcept : HttpResult → Except String String
  | HttpResult.getFailed err => Except.error ("Error from _cloud-netblocks: " ++ err)
  | HttpResult.readFailed err => Except.error ("Error to retrieve the domains list: " ++ err)
  | HttpResult.body text => Except.ok text

/-- The oracle `httpGet` with a log: the world also carries the list of the
requests made so far, each with its outcome, oldest first. -/
def logged {σ : Type} (httpGet : HttpGet σ) : HttpGet (σ × List (String × HttpResult)) :=
  fun w url => ((httpGet w.1 url).1, ((httpGet w.1 url).2, w.2 ++ [(url, (httpGet w.1 url).1)]))

/-- The record whose tokens are `ts`, one space between neighbours. -/
def joinTokens : List String → String
  | [] => ""
  | [t] => t
  | t :: t' :: ts => t ++ " " ++ joinTokens (t' :: ts)

/-- Every block of `cidr_blocks` is in one of the two family lists, and every
block of a family list is in `cidr_blocks`. -/
def CidrMap.Covered (m : CidrMap) : Prop :=
  (∀ x ∈ m.cidr_blocks, x ∈ m.cidr_blocks_ipv4 ∨ x ∈ m.cidr_blocks_ipv6) ∧
    (∀ x, x ∈ m.cidr_blocks_ipv4 ∨ x ∈ m.cidr_blocks_ipv6 → x ∈ m.cidr_blocks)

/-- The URL that `netblock_request` asks for. -/
def requestUrl (name : String) : String :=
  "https://dns.google.com/resolve?name=" ++ name ++ "&type=TXT"

/-- The names the seed record puts on the work queue: the first loop run on
its tokens from the empty queue. -/
def seedIncludes (response : String) : List String :=
  (Split response " ").foldl seedToken []

/-- Both family lists are sublists of `cidr_blocks`, whose length is the sum
of theirs. -/
def CidrMap.Interleaved (m : CidrMap) : Prop :=
  m.cidr_blocks_ipv4.Sublist m.cidr_blocks ∧ m.cidr_blocks_ipv6.Sublist m.cidr_blocks ∧
    m.cidr_blocks.length = m.cidr_blocks_ipv4.length + m.cidr_blocks_ipv6.length

/-- The include relation of a table of records: `Includes records a b` when
the record of `a`, fetched from the work queue, puts `b` on the work queue. -/
def Includes (records : String → String) (a b : String) : Prop :=
  b ∈ recordIncludes (records a)

/-- The number of fetches it takes to empty a work queue when every name has the
record given by `records`: one for the head, those for what the head includes,
and those for the rest. -/
inductive FetchCount (records : String → String) : List String → Nat → Prop
  | nil : FetchCount records [] 0
  | cons (a : String) (rest : List String) (k₁ k₂ : Nat) :
      FetchCount records (recordIncludes (records a)) k₁ → FetchCount records rest k₂ →
      FetchCount records (a :: rest) (k₁ + k₂ + 1)

/-! ## Example oracles -/

/-- The record graph of the breadth-first example: a seed that includes
`sub.example.com`, which holds two blocks and includes `leaf.example.com`. -/
def exampleGet : HttpGet Unit := fun w url =>
  if url = "https://dns.google.com/resolve?name=seed.example.com&type=TXT" then
    (HttpResult.body "include:sub.example.com", w)
  else if url = "https://dns.google.com/resolve?name=sub.example.com&type=TXT" then
    (HttpResult.body "ip4:1.2.3.0/24 ip6:::1/128 include:leaf.example.com", w)
  else if url = "https://dns.google.com/resolve?name=leaf.example.com&type=TXT" then
    (HttpResult.body "ip4:5.6.7.0/24", w)
  else (HttpResult.getFailed "no such host", w)

/-- Two worlds that differ only in the seed record: in world `0` the seed
record is `ip4:9.9.9.0/24 include:sub.example.com`, in world `1` it is
`include:sub.example.com ip6:::9/128`; every fetch leads to world `2`, where
the records are those of `exampleGet`. -/
def twoSeedGet : HttpGet Nat := fun w url =>
  if w = 0 then (HttpResult.body "ip4:9.9.9.0/24 include:sub.example.com", 2)
  else if w = 1 then (HttpResult.body "include:sub.example.com ip6:::9/128", 2)
  else ((exampleGet () url).1, 2)

/-- A stateless oracle given by a table of names and their records; a name
that is not in the table cannot be fetched. -/
def recordsGet (records : List (String × String)) : HttpGet Unit := fun w url =>
  match records.find? (fun r => url = "https://dns.google.com/resolve?name=" ++ r.1 ++ "&type=TXT") with
  | some r => (HttpResult.body r.2, w)
  | none => (HttpResult.getFailed "no such host", w)

/-- A stateless oracle on which every fetch succeeds: the body for a URL is
read off `table`. -/
def tableGet (table : String → String) : HttpGet Unit := fun w url =>
  (HttpResult.body (table url), w)

/-- A diamond of includes: the seed includes `a` and `b`, both of which include
`c`; every other name has the empty record. -/
def diamondTable (url : String) : String :=
  if url = requestUrl "seed.example.com" then "include:a.example.com include:b.example.com"
  else if url = requestUrl "a.example.com" then "include:c.example.com"
  else if url = requestUrl "b.example.com" then "ip6:::1/128 include:c.example.com"
  else if url = requestUrl "c.example.com" then "ip4:1.2.3.0/24"
  else ""

/-- Every name, the seed too, has the record `ip4:1.2.3.0/24 include:loop.example.com`:
`loop.example.com` includes itself. -/
def loopTable (_url : String) : String := "ip4:1.2.3.0/24 include:loop.example.com"

/-! ## String lemmas -/

theorem cutFirst_append_left (old r : List Char) : cutFirst old (old ++ r) = some ([], r) := by
  cases old with
  | nil =>
    cases r with
    | nil => simp [cutFirst]
    | cons c cs => simp [cutFirst]
  | cons o os =>
    simp [cutFirst, List.isPrefixOf]

theorem HasPrefix_append (p v : String) : HasPrefix (p ++ v) p = true := by
  simp [HasPrefix]

theorem Replace_append_left (p v : String) (hp : p.data ≠ []) :
    Replace (p ++ v) p "" 1 = v := by
  simp [Replace, hp, replaceChars, cutFirst_append_left]

/-! ## Tokens of a queued record -/

/-- C6: in a queued record, a token `ip4:v` appends exactly `v` to the end of
`cidr_blocks_ipv4` and of `cidr_blocks` and leaves `cidr_blocks_ipv6` and the
work queue as they were; a token `ip6:v` appends exactly `v` to the end of
`cidr_blocks_ipv6` and of `cidr_blocks` and leaves `cidr_blocks_ipv4` and the
work queue as they were.  The value `v` is arbitrary. -/
theorem scanToken_ip4_ip6 (st : List String × CidrMap) (v : String) :
    scanToken st ("ip4:" ++ v) =
        (st.1, ⟨st.2.cidr_blocks ++ [v], st.2.cidr_blocks_ipv4 ++ [v], st.2.cidr_blocks_ipv6⟩) ∧
      scanToken st ("ip6:" ++ v) =
        (st.1, ⟨st.2.cidr_blocks ++ [v], st.2.cidr_blocks_ipv4, st.2.cidr_blocks_ipv6 ++ [v]⟩) := by
  have h4 : HasPrefix ("ip4:" ++ v) "ip4" = true := by
    simp [HasPrefix, List.isPrefixOf]
  have h64 : HasPrefix ("ip6:" ++ v) "ip4" = false := by
    simp [HasPrefix, List.isPrefixOf]
  have h6 : HasPrefix ("ip6:" ++ v) "ip6" = true := by
    simp [HasPrefix, List.isPrefixOf]
  have r4 : Replace ("ip4:" ++ v) "ip4:" "" 1 = v := Replace_append_left _ _ (by decide)
  have r6 : Replace ("ip6:" ++ v) "ip6:" "" 1 = v := Replace_append_left _ _ (by decide)
  constructor
  · simp [scanToken, h4, r4]
  · simp [scanToken, h64, h6, r6]

/-! ## The loops -/

theorem CidrMap.append_empty (a : CidrMap) : a.append CidrMap.empty = a := by
  cases a; simp [CidrMap.append, CidrMap.empty]

theorem CidrMap.empty_append (a : CidrMap) : CidrMap.empty.append a = a := by
  cases a; simp [CidrMap.append, CidrMap.empty]

theorem CidrMap.append_assoc (a b c : CidrMap) :
    (a.append b).append c = a.append (b.append c) := by
  simp [CidrMap.append]

theorem scanToken_acc (q : List String) (acc : CidrMap) (sp : String) :
    scanToken (q, acc) sp =
      (q ++ (scanToken ([], CidrMap.empty) sp).1,
        acc.append (scanToken ([], CidrMap.empty) sp).2) := by
  cases acc
  unfold scanToken
  split_ifs <;> simp [CidrMap.append, CidrMap.empty]

theorem foldl_scanToken_acc (toks : List String) (q : List String) (acc : CidrMap) :
    toks.foldl scanToken (q, acc) =
      (q ++ (toks.foldl scanToken ([], CidrMap.empty)).1,
        acc.append (toks.foldl scanToken ([], CidrMap.empty)).2) := by
  induction toks generalizing q acc with
  | nil => simp [CidrMap.append_empty]
  | cons sp t ih =>
    simp only [List.foldl_cons]
    rw [scanToken_acc q acc sp, ih, ih (scanToken ([], CidrMap.empty) sp).1]
    simp [CidrMap.append_assoc]

theorem foldl_scanToken_blocks (toks : List String) :
    (toks.foldl scanToken ([], CidrMap.empty)).2.cidr_blocks = toks.filterMap tokenBlock := by
  induction toks with
  | nil => simp [CidrMap.empty]
  | cons sp t ih =>
    simp only [List.foldl_cons]
    rw [foldl_scanToken_acc, List.filterMap_cons]
    simp only [CidrMap.append, ih]
    unfold scanToken tokenBlock
    split_ifs <;> simp [CidrMap.empty]

theorem foldl_seedToken (toks : List String) (q : List String) :
    toks.foldl seedToken q =
      q ++ (toks.filter isInclude).map (fun sp => Replace sp "include:" "" 1) := by
  induction toks generalizing q with
  | nil => simp
  | cons sp t ih =>
    simp only [List.foldl_cons, ih, List.filter_cons]
    unfold seedToken isInclude
    split_ifs <;> simp

theorem queueLoop_nil {σ : Type} (httpGet : HttpGet σ) (fuel : Nat) (w : σ) (acc : CidrMap) :
    queueLoop httpGet fuel w [] acc = some (Except.ok acc, w) := by
  cases fuel <;> rfl

theorem queueLoop_ok {σ : Type} (httpGet : HttpGet σ) (fuel : Nat) (w w' : σ) (name response : String)
    (rest : List String) (acc : CidrMap)
    (h : netblock_request httpGet w name = (Except.ok response, w')) :
    queueLoop httpGet (fuel + 1) w (name :: rest) acc =
      queueLoop httpGet fuel w' (rest ++ recordIncludes response)
        (acc.append (recordBlocks response)) := by
  rw [queueLoop, h]
  simp only []
  rw [foldl_scanToken_acc]
  rfl

theorem queueLoop_error {σ : Type} (httpGet : HttpGet σ) (fuel : Nat) (w w' : σ) (name err : String)
    (rest : List String) (acc : CidrMap)
    (h : netblock_request httpGet w name = (Except.error err, w')) :
    queueLoop httpGet (fuel + 1) w (name :: rest) acc = some (Except.error err, w') := by
  rw [queueLoop, h]

theorem prependBlocks_prependBlocks {σ : Type} (a b : CidrMap) (r : Except String CidrMap × σ) :
    prependBlocks a (prependBlocks b r) = prependBlocks (a.append b) r := by
  rcases r with ⟨_ | m, w⟩ <;> simp [prependBlocks, CidrMap.append_assoc]

theorem queueLoop_acc {σ : Type} (httpGet : HttpGet σ) (fuel : Nat) (w : σ) (q : List String)
    (acc : CidrMap) :
    queueLoop httpGet fuel w q acc =
      (queueLoop httpGet fuel w q CidrMap.empty).map (prependBlocks acc) := by
  induction fuel generalizing w q acc with
  | zero =>
    cases q with
    | nil => simp [queueLoop_nil, prependBlocks, CidrMap.append_empty]
    | cons n rest => simp [queueLoop]
  | succ fuel ih =>
    cases q with
    | nil => simp [queueLoop_nil, prependBlocks, CidrMap.append_empty]
    | cons n rest =>
      rcases hr : netblock_request httpGet w n with ⟨_ | response, w'⟩
      · rw [queueLoop_error _ _ _ _ _ _ _ _ hr, queueLoop_error _ _ _ _ _ _ _ _ hr]
        simp [prependBlocks]
      · rw [queueLoop_ok _ _ _ _ _ _ _ _ hr, queueLoop_ok _ _ _ _ _ _ _ _ hr, ih,
          ih _ _ (CidrMap.empty.append _), Option.map_map, CidrMap.empty_append]
        congr 1
        funext r
        simp [prependBlocks_prependBlocks]

/-! ## Breadth-first resolution -/

/-- C1: for every oracle in which the seed record is the single token
`include:sub.example.com`, the record of `sub.example.com` is
`ip4:1.2.3.0/24 ip6:::1/128 include:leaf.example.com` and the record of
`leaf.example.com` is `ip4:5.6.7.0/24`, `getCidrBlocks` on the seed returns
(as soon as two loop iterations are allowed) without error the map with
`cidr_blocks_ipv4 = ["1.2.3.0/24", "5.6.7.0/24"]`, `cidr_blocks_ipv6 = ["::1/128"]`
and `cidr_blocks = ["1.2.3.0/24", "::1/128", "5.6.7.0/24"]`.  In general, one
iteration on a queue `name :: rest` whose head has record `response` puts the
blocks of `response`, in token order, right after the blocks accumulated so far
and before everything that the names queued after it (`rest`, then the includes
of `response`) contribute. -/
theorem getCidrBlocks_breadth_first {σ : Type} (httpGet : HttpGet σ) (seed : String)
    (hseed : ∀ w, (netblock_request httpGet w seed).1 = Except.ok "include:sub.example.com")
    (hsub : ∀ w, (netblock_request httpGet w "sub.example.com").1 =
      Except.ok "ip4:1.2.3.0/24 ip6:::1/128 include:leaf.example.com")
    (hleaf : ∀ w, (netblock_request httpGet w "leaf.example.com").1 = Except.ok "ip4:5.6.7.0/24") :
    (∀ fuel w, 2 ≤ fuel → ∃ w', getCidrBlocks httpGet fuel w seed =
        some (Except.ok ⟨["1.2.3.0/24", "::1/128", "5.6.7.0/24"], ["1.2.3.0/24", "5.6.7.0/24"],
          ["::1/128"]⟩, w')) ∧
      (∀ fuel w w' name response rest acc,
        netblock_request httpGet w name = (Except.ok response, w') →
        queueLoop httpGet (fuel + 1) w (name :: rest) acc =
            (queueLoop httpGet fuel w' (rest ++ recordIncludes response) CidrMap.empty).map
              (prependBlocks (acc.append (recordBlocks response))) ∧
          (recordBlocks response).cidr_blocks = (Split response " ").filterMap tokenBlock) := by
  refine ⟨?_, ?_⟩
  · intro fuel w hfuel
    obtain ⟨k, rfl⟩ : ∃ k, fuel = k + 2 := ⟨fuel - 2, by omega⟩
    have e1 : netblock_request httpGet w seed =
        (Except.ok "include:sub.example.com", (netblock_request httpGet w seed).2) :=
      Prod.ext (hseed w) rfl
    generalize (netblock_request httpGet w seed).2 = w1 at e1
    have e2 : netblock_request httpGet w1 "sub.example.com" =
        (Except.ok "ip4:1.2.3.0/24 ip6:::1/128 include:leaf.example.com",
          (netblock_request httpGet w1 "sub.example.com").2) :=
      Prod.ext (hsub w1) rfl
    generalize (netblock_request httpGet w1 "sub.example.com").2 = w2 at e2
    have e3 : netblock_request httpGet w2 "leaf.example.com" =
        (Except.ok "ip4:5.6.7.0/24", (netblock_request httpGet w2 "leaf.example.com").2) :=
      Prod.ext (hleaf w2) rfl
    generalize (netblock_request httpGet w2 "leaf.example.com").2 = w3 at e3
    have s1 : (Split "include:sub.example.com" " ").foldl seedToken [] = ["sub.example.com"] := by
      decide
    have i2 : recordIncludes "ip4:1.2.3.0/24 ip6:::1/128 include:leaf.example.com" =
        ["leaf.example.com"] := by decide
    have b2 : recordBlocks "ip4:1.2.3.0/24 ip6:::1/128 include:leaf.example.com" =
        ⟨["1.2.3.0/24", "::1/128"], ["1.2.3.0/24"], ["::1/128"]⟩ := by decide
    have i3 : recordIncludes "ip4:5.6.7.0/24" = [] := by decide
    have b3 : recordBlocks "ip4:5.6.7.0/24" = ⟨["5.6.7.0/24"], ["5.6.7.0/24"], []⟩ := by decide
    refine ⟨w3, ?_⟩
    rw [getCidrBlocks, e1]
    simp only []
    rw [s1, queueLoop_ok _ _ _ _ _ _ _ _ e2, i2, b2, List.nil_append,
      queueLoop_ok _ _ _ _ _ _ _ _ e3, i3, b3, List.append_nil, queueLoop_nil]
    rfl
  · intro fuel w w' name response rest acc h
    refine ⟨?_, ?_⟩
    · rw [queueLoop_ok _ _ _ _ _ _ _ _ h, queueLoop_acc]
    · exact foldl_scanToken_blocks _

/-- C1, at the oracle `exampleGet`: two iterations resolve `seed.example.com`
to the three lists of the example. -/
theorem getCidrBlocks_breadth_first_witness :
    getCidrBlocks exampleGet 2 () "seed.example.com" =
      some (Except.ok ⟨["1.2.3.0/24", "::1/128", "5.6.7.0/24"], ["1.2.3.0/24", "5.6.7.0/24"],
        ["::1/128"]⟩, ()) := by
  obtain ⟨w', h⟩ := (getCidrBlocks_breadth_first exampleGet "seed.example.com"
    (fun _ => rfl) (fun _ => rfl) (fun _ => rfl)).1 2 () (Nat.le_refl 2)
  exact h

/-! ## The seed record is an index of includes -/

/-- C2: the result of `getCidrBlocks` depends on the seed record only through
its sequence of `include:`-prefixed tokens.  If the seed fetch yields record
`r₁` from world `w₁` and record `r₂` from world `w₂`, leaving the oracle in the
same world, and the two records have the same sequence of `include:` tokens,
then the two calls have the same outcome; and that outcome is the work-queue
loop started from the stripped `include:` tokens with an empty map, so no
`ip4:`/`ip6:` token of the seed record contributes a block. -/
theorem getCidrBlocks_seed_index {σ : Type} (httpGet : HttpGet σ) (fuel : Nat) (w₁ w₂ w' : σ)
    (seed r₁ r₂ : String)
    (h₁ : netblock_request httpGet w₁ seed = (Except.ok r₁, w'))
    (h₂ : netblock_request httpGet w₂ seed = (Except.ok r₂, w'))
    (hinc : includeTokens r₁ = includeTokens r₂) :
    getCidrBlocks httpGet fuel w₁ seed = getCidrBlocks httpGet fuel w₂ seed ∧
      getCidrBlocks httpGet fuel w₁ seed =
        queueLoop httpGet fuel w'
          ((includeTokens r₁).map (fun sp => Replace sp "include:" "" 1)) CidrMap.empty := by
  have e₁ : getCidrBlocks httpGet fuel w₁ seed =
      queueLoop httpGet fuel w'
        ((includeTokens r₁).map (fun sp => Replace sp "include:" "" 1)) CidrMap.empty := by
    rw [getCidrBlocks, h₁]
    simp only []
    rw [foldl_seedToken, List.nil_append]
    rfl
  have e₂ : getCidrBlocks httpGet fuel w₂ seed =
      queueLoop httpGet fuel w'
        ((includeTokens r₂).map (fun sp => Replace sp "include:" "" 1)) CidrMap.empty := by
    rw [getCidrBlocks, h₂]
    simp only []
    rw [foldl_seedToken, List.nil_append]
    rfl
  exact ⟨by rw [e₁, e₂, hinc], e₁⟩

/-- C2, at the oracle `twoSeedGet`: the seed records
`ip4:9.9.9.0/24 include:sub.example.com` and `include:sub.example.com ip6:::9/128`
give the same outcome, in which neither `9.9.9.0/24` nor `::9/128` occurs. -/
theorem getCidrBlocks_seed_index_witness :
    getCidrBlocks twoSeedGet 2 0 "seed.example.com" =
        getCidrBlocks twoSeedGet 2 1 "seed.example.com" ∧
      getCidrBlocks twoSeedGet 2 0 "seed.example.com" =
        some (Except.ok ⟨["1.2.3.0/24", "::1/128", "5.6.7.0/24"], ["1.2.3.0/24", "5.6.7.0/24"],
          ["::1/128"]⟩, 2) := by
  have h := getCidrBlocks_seed_index twoSeedGet 2 0 1 2 "seed.example.com"
    "ip4:9.9.9.0/24 include:sub.example.com" "include:sub.example.com ip6:::9/128"
    rfl rfl (by decide)
  exact ⟨h.1, rfl⟩

/-! ## Failing fetches -/

theorem netblock_request_eq {σ : Type} (httpGet : HttpGet σ) (w : σ) (name : String) :
    netblock_request httpGet w name =
      ((httpGet w ("https://dns.google.com/resolve?name=" ++ name ++ "&type=TXT")).1.toExcept,
        (httpGet w ("https://dns.google.com/resolve?name=" ++ name ++ "&type=TXT")).2) := by
  unfold netblock_request
  rcases httpGet w ("https://dns.google.com/resolve?name=" ++ name ++ "&type=TXT") with
    ⟨_ | _ | _, w'⟩ <;> rfl

theorem queueLoop_logged {σ : Type} (httpGet : HttpGet σ) (fuel : Nat) (w w' : σ)
    (log₀ log : List (String × HttpResult)) (q : List String) (acc : CidrMap)
    (r : Except String CidrMap)
    (h : queueLoop (logged httpGet) fuel (w, log₀) q acc = some (r, (w', log))) :
    ∃ ext, log = log₀ ++ ext ∧
      ∀ e ∈ ext, ∀ err, e.2.toExcept = Except.error err → r = Except.error err := by
  induction fuel generalizing w log₀ q acc with
  | zero =>
    cases q with
    | nil =>
      rw [queueLoop_nil] at h
      simp only [Option.some.injEq, Prod.mk.injEq] at h
      exact ⟨[], by simp [h.2.2], by simp⟩
    | cons n rest => simp [queueLoop] at h
  | succ fuel ih =>
    cases q with
    | nil =>
      rw [queueLoop_nil] at h
      simp only [Option.some.injEq, Prod.mk.injEq] at h
      exact ⟨[], by simp [h.2.2], by simp⟩
    | cons n rest =>
      have hr := netblock_request_eq (logged httpGet) (w, log₀) n
      generalize hu : "https://dns.google.com/resolve?name=" ++ n ++ "&type=TXT" = url at hr
      simp only [logged] at hr
      rcases ho : (httpGet w url).1 with err | err | text
      · rw [ho] at hr
        rw [queueLoop_error _ _ _ _ _ _ _ _ hr] at h
        simp only [Option.some.injEq, Prod.mk.injEq] at h
        refine ⟨[(url, HttpResult.getFailed err)], h.2.2.symm, ?_⟩
        intro e he err' herr
        simp only [List.mem_singleton] at he
        subst he
        rw [← h.1]
        simpa [HttpResult.toExcept] using herr
      · rw [ho] at hr
        rw [queueLoop_error _ _ _ _ _ _ _ _ hr] at h
        simp only [Option.some.injEq, Prod.mk.injEq] at h
        refine ⟨[(url, HttpResult.readFailed err)], h.2.2.symm, ?_⟩
        intro e he err' herr
        simp only [List.mem_singleton] at he
        subst he
        rw [← h.1]
        simpa [HttpResult.toExcept] using herr
      · rw [ho] at hr
        rw [queueLoop_ok _ _ _ _ _ _ _ _ hr] at h
        obtain ⟨ext, hlog, hext⟩ := ih _ _ _ _ h
        refine ⟨(url, HttpResult.body text) :: ext, by simp [hlog], ?_⟩
        intro e he err' herr
        rcases List.mem_cons.1 he with rfl | he
        · simp [HttpResult.toExcept] at herr
        · exact hext e he err' herr

/-- C3: a failing fetch aborts `getCidrBlocks` with that fetch's error and no
map.  (1) If the fetch of the seed fails with `err`, `getCidrBlocks` returns
`err`.  (2) If the fetch of the name at the head of the work queue fails with
`err`, the loop returns `err`, whatever map `acc` has been accumulated.
(3) On the logging oracle: whenever `getCidrBlocks` returns, any request in the
log that failed is the error returned; so if it returns a map, every request it
made gave a body. -/
theorem getCidrBlocks_fetch_error {σ : Type} (httpGet : HttpGet σ) :
    (∀ fuel w w' seed err, netblock_request httpGet w seed = (Except.error err, w') →
        getCidrBlocks httpGet fuel w seed = some (Except.error err, w')) ∧
      (∀ fuel w w' name rest acc err,
        netblock_request httpGet w name = (Except.error err, w') →
        queueLoop httpGet (fuel + 1) w (name :: rest) acc = some (Except.error err, w')) ∧
      (∀ fuel w w' seed r log,
        getCidrBlocks (logged httpGet) fuel (w, []) seed = some (r, (w', log)) →
        (∀ e ∈ log, ∀ err, e.2.toExcept = Except.error err → r = Except.error err) ∧
          (∀ m, r = Except.ok m → ∀ e ∈ log, ∃ text, e.2 = HttpResult.body text)) := by
  refine ⟨?_, ?_, ?_⟩
  · intro fuel w w' seed err h
    rw [getCidrBlocks, h]
  · intro fuel w w' name rest acc err h
    exact queueLoop_error _ _ _ _ _ _ _ _ h
  · intro fuel w w' seed r log h
    have key : ∀ e ∈ log, ∀ err, e.2.toExcept = Except.error err → r = Except.error err := by
      have hr := netblock_request_eq (logged httpGet) (w, []) seed
      generalize hu : "https://dns.google.com/resolve?name=" ++ seed ++ "&type=TXT" = url at hr
      simp only [logged, List.nil_append] at hr
      rw [getCidrBlocks, hr] at h
      rcases ho : (httpGet w url).1 with err | err | text
      · rw [ho] at h
        simp only [HttpResult.toExcept, Option.some.injEq, Prod.mk.injEq] at h
        intro e he err' herr
        rw [← h.2.2, List.mem_singleton] at he
        subst he
        rw [← h.1]
        simpa [HttpResult.toExcept] using herr
      · rw [ho] at h
        simp only [HttpResult.toExcept, Option.some.injEq, Prod.mk.injEq] at h
        intro e he err' herr
        rw [← h.2.2, List.mem_singleton] at he
        subst he
        rw [← h.1]
        simpa [HttpResult.toExcept] using herr
      · rw [ho] at h
        simp only [HttpResult.toExcept] at h
        obtain ⟨ext, hlog, hext⟩ := queueLoop_logged _ _ _ _ _ _ _ _ _ h
        intro e he err' herr
        rw [hlog] at he
        rcases List.mem_append.1 he with he | he
        · simp only [List.mem_singleton] at he
          subst he
          simp [HttpResult.toExcept] at herr
        · exact hext e he err' herr
    refine ⟨key, ?_⟩
    intro m hm e he
    rcases hb : e.2 with err | err | text
    · have := key e he _ (by rw [hb]; rfl)
      rw [hm] at this
      cases this
    · have := key e he _ (by rw [hb]; rfl)
      rw [hm] at this
      cases this
    · exact ⟨text, rfl⟩

/-- C3, at the oracle `exampleGet`: the name `missing.example.com` cannot be
fetched; as a seed it makes `getCidrBlocks` return the fetch error, and at the
head of the work queue it makes the loop return the fetch error although a
block has been accumulated and another name is queued. -/
theorem getCidrBlocks_fetch_error_witness :
    getCidrBlocks exampleGet 0 () "missing.example.com" =
        some (Except.error "Error from _cloud-netblocks: no such host", ()) ∧
      queueLoop exampleGet 1 () ["missing.example.com", "leaf.example.com"]
          ⟨["1.2.3.0/24"], ["1.2.3.0/24"], []⟩ =
        some (Except.error "Error from _cloud-netblocks: no such host", ()) :=
  ⟨(getCidrBlocks_fetch_error exampleGet).1 0 () () "missing.example.com" _ rfl,
    (getCidrBlocks_fetch_error exampleGet).2.1 0 () () "missing.example.com" _ _ _ rfl⟩

/-! ## Tokens without the colon -/

theorem scanToken_other (st : List String × CidrMap) (sp : String)
    (h4 : HasPrefix sp "ip4" = false) (h6 : HasPrefix sp "ip6" = false)
    (hi : HasPrefix sp "include:" = false) : scanToken st sp = st := by
  simp [scanToken, h4, h6, hi]

/-- C4: the tokens `ip4` and `ip6x` do not start with `ip4:`, `ip6:` or
`include:`, yet the inner loop does not ignore them: it tests the prefixes
`ip4` and `ip6` without the colon, finds no `ip4:`/`ip6:` to remove, and
appends the whole token as a block.  A queued record `ip4 ip6x` so gives
`cidr_blocks = ["ip4", "ip6x"]`. -/
theorem scanToken_ip4_without_colon :
    scanToken ([], CidrMap.empty) "ip4" = ([], ⟨["ip4"], ["ip4"], []⟩) ∧
      scanToken ([], CidrMap.empty) "ip6x" = ([], ⟨["ip6x"], [], ["ip6x"]⟩) ∧
      getCidrBlocks
          (recordsGet [("seed.example.com", "include:sub.example.com"),
            ("sub.example.com", "ip4 ip6x")]) 1 () "seed.example.com" =
        some (Except.ok ⟨["ip4", "ip6x"], ["ip4"], ["ip6x"]⟩, ()) :=
  ⟨by decide, by decide, rfl⟩

/-! ## Splitting a record into tokens -/

theorem cutFirst_space_none (s : List Char) (h : ' ' ∉ s) : cutFirst [' '] s = none := by
  induction s with
  | nil => simp [cutFirst]
  | cons c cs ih =>
    simp only [List.mem_cons, not_or] at h
    have hc : (' ' == c) = false := by simpa using h.1
    simp [cutFirst, List.isPrefixOf, hc, ih h.2]

theorem cutFirst_space_some (t rest : List Char) (h : ' ' ∉ t) :
    cutFirst [' '] (t ++ ' ' :: rest) = some (t, rest) := by
  induction t with
  | nil => simp [cutFirst, List.isPrefixOf]
  | cons c cs ih =>
    simp only [List.mem_cons, not_or] at h
    have hc : (' ' == c) = false := by simpa using h.1
    simp [cutFirst, List.isPrefixOf, hc, ih h.2]

theorem splitChars_joinTokens (ts : List String) (hne : ts ≠ [])
    (hsp : ∀ t ∈ ts, ' ' ∉ t.data) (n : Nat) (hn : (joinTokens ts).data.length ≤ n) :
    splitChars [' '] n (joinTokens ts).data = ts.map String.data := by
  induction ts generalizing n with
  | nil => exact absurd rfl hne
  | cons t ts ih =>
    cases ts with
    | nil =>
      have ht := cutFirst_space_none t.data (hsp t (by simp))
      cases n <;> simp [joinTokens, splitChars, ht]
    | cons t' ts =>
      have hd : (joinTokens (t :: t' :: ts)).data = t.data ++ ' ' :: (joinTokens (t' :: ts)).data := by
        simp [joinTokens, String.data_append]
      rw [hd] at hn ⊢
      simp only [List.length_append, List.length_cons] at hn
      obtain ⟨m, rfl⟩ : ∃ m, n = m + 1 := ⟨n - 1, by omega⟩
      rw [splitChars, cutFirst_space_some _ _ (hsp t (by simp))]
      simp only [List.map_cons]
      rw [ih (by simp) (fun x hx => hsp x (List.mem_cons_of_mem _ hx)) m (by omega)]
      simp

/-- C5, as stated, fails: a record is split at spaces only.  The seed record
`include:a.example.com\ninclude:b.example.com` is one token and queues the one
name `a.example.com\ninclude:b.example.com`, not the two names; the queued
record `ip4:1.2.3.0/24\tip4:5.6.7.0/24` is one token and gives the one block
`1.2.3.0/24\tip4:5.6.7.0/24`. -/
theorem Split_newline_tab_not_separators :
    (Split "include:a.example.com\ninclude:b.example.com" " ").foldl seedToken [] =
        ["a.example.com\ninclude:b.example.com"] ∧
      (Split "include:a.example.com\ninclude:b.example.com" " ").foldl seedToken [] ≠
        ["a.example.com", "b.example.com"] ∧
      getCidrBlocks
          (recordsGet [("seed.example.com", "include:sub.example.com"),
            ("sub.example.com", "ip4:1.2.3.0/24\tip4:5.6.7.0/24")]) 1 () "seed.example.com" =
        some (Except.ok ⟨["1.2.3.0/24\tip4:5.6.7.0/24"], ["1.2.3.0/24\tip4:5.6.7.0/24"], []⟩, ()) ∧
      ["1.2.3.0/24\tip4:5.6.7.0/24"] ≠ ["1.2.3.0/24", "5.6.7.0/24"] :=
  ⟨by decide, by decide, rfl, by decide⟩

/-- C5, amended: a fetched record is split into tokens at every space and
nowhere else.  A record made of tokens that contain no space, with one space
between neighbours, splits into exactly these tokens, so both loops classify
each of them on its own (tabs and newlines stay inside a token).  The seed
record `include:a.example.com include:b.example.com` queues `a.example.com`
and `b.example.com`; the queued record `ip4:1.2.3.0/24 ip4:5.6.7.0/24` gives
`cidr_blocks_ipv4 = ["1.2.3.0/24", "5.6.7.0/24"]`. -/
theorem Split_on_spaces (ts : List String) (hne : ts ≠ []) (hsp : ∀ t ∈ ts, ' ' ∉ t.data) :
    Split (joinTokens ts) " " = ts ∧
      (∀ q, (Split (joinTokens ts) " ").foldl seedToken q = ts.foldl seedToken q) ∧
      (∀ st, (Split (joinTokens ts) " ").foldl scanToken st = ts.foldl scanToken st) ∧
      (Split "include:a.example.com include:b.example.com" " ").foldl seedToken [] =
        ["a.example.com", "b.example.com"] ∧
      recordBlocks "ip4:1.2.3.0/24 ip4:5.6.7.0/24" =
        ⟨["1.2.3.0/24", "5.6.7.0/24"], ["1.2.3.0/24", "5.6.7.0/24"], []⟩ := by
  have hs : Split (joinTokens ts) " " = ts := by
    have hsep : " ".data = [' '] := rfl
    simp only [Split, hsep, List.cons_ne_nil, if_false]
    rw [splitChars_joinTokens ts hne hsp _ (Nat.le_refl _), List.map_map]
    have hid : String.mk ∘ String.data = id := funext fun _ => rfl
    rw [hid, List.map_id]
  refine ⟨hs, ?_, ?_, by decide, by decide⟩
  · intro q; rw [hs]
  · intro st; rw [hs]

/-- C5, amended, at the tokens `ip4:1.2.3.0/24\tx` and `include:a.example.com`:
the record `ip4:1.2.3.0/24\tx include:a.example.com` splits into these two. -/
theorem Split_on_spaces_witness :
    Split "ip4:1.2.3.0/24\tx include:a.example.com" " " =
      ["ip4:1.2.3.0/24\tx", "include:a.example.com"] :=
  (Split_on_spaces ["ip4:1.2.3.0/24\tx", "include:a.example.com"] (by decide) (by decide)).1

/-! ## The three lists of a result -/

theorem CidrMap.Covered.append {a b : CidrMap} (ha : a.Covered) (hb : b.Covered) :
    (a.append b).Covered := by
  obtain ⟨ha1, ha2⟩ := ha
  obtain ⟨hb1, hb2⟩ := hb
  constructor
  · intro x hx
    simp only [CidrMap.append, List.mem_append] at hx ⊢
    rcases hx with hx | hx
    · rcases ha1 x hx with h | h
      · exact Or.inl (Or.inl h)
      · exact Or.inr (Or.inl h)
    · rcases hb1 x hx with h | h
      · exact Or.inl (Or.inr h)
      · exact Or.inr (Or.inr h)
  · intro x hx
    simp only [CidrMap.append, List.mem_append] at hx ⊢
    rcases hx with (h | h) | (h | h)
    · exact Or.inl (ha2 x (Or.inl h))
    · exact Or.inr (hb2 x (Or.inl h))
    · exact Or.inl (ha2 x (Or.inr h))
    · exact Or.inr (hb2 x (Or.inr h))

theorem scanToken_covered (st : List String × CidrMap) (sp : String) (h : st.2.Covered) :
    (scanToken st sp).2.Covered := by
  obtain ⟨h1, h2⟩ := h
  unfold scanToken
  split_ifs
  · constructor
    · intro x hx
      simp only [List.mem_append, List.mem_singleton] at hx ⊢
      rcases hx with hx | hx
      · rcases h1 x hx with h | h
        · exact Or.inl (Or.inl h)
        · exact Or.inr h
      · exact Or.inl (Or.inr hx)
    · intro x hx
      simp only [List.mem_append, List.mem_singleton] at hx ⊢
      rcases hx with (h | h) | h
      · exact Or.inl (h2 x (Or.inl h))
      · exact Or.inr h
      · exact Or.inl (h2 x (Or.inr h))
  · constructor
    · intro x hx
      simp only [List.mem_append, List.mem_singleton] at hx ⊢
      rcases hx with hx | hx
      · rcases h1 x hx with h | h
        · exact Or.inl h
        · exact Or.inr (Or.inl h)
      · exact Or.inr (Or.inr hx)
    · intro x hx
      simp only [List.mem_append, List.mem_singleton] at hx ⊢
      rcases hx with h | h | h
      · exact Or.inl (h2 x (Or.inl h))
      · exact Or.inl (h2 x (Or.inr h))
      · exact Or.inr h
  · exact ⟨h1, h2⟩
  · exact ⟨h1, h2⟩

theorem foldl_scanToken_covered (toks : List String) (st : List String × CidrMap)
    (h : st.2.Covered) : (toks.foldl scanToken st).2.Covered := by
  induction toks generalizing st with
  | nil => exact h
  | cons sp t ih => exact ih _ (scanToken_covered st sp h)

theorem queueLoop_covered {σ : Type} (httpGet : HttpGet σ) (fuel : Nat) (w w' : σ)
    (q : List String) (acc m : CidrMap) (hacc : acc.Covered)
    (h : queueLoop httpGet fuel w q acc = some (Except.ok m, w')) : m.Covered := by
  induction fuel generalizing w q acc with
  | zero =>
    cases q with
    | nil =>
      rw [queueLoop_nil] at h
      simp only [Option.some.injEq, Prod.mk.injEq, Except.ok.injEq] at h
      exact h.1 ▸ hacc
    | cons n rest => simp [queueLoop] at h
  | succ fuel ih =>
    cases q with
    | nil =>
      rw [queueLoop_nil] at h
      simp only [Option.some.injEq, Prod.mk.injEq, Except.ok.injEq] at h
      exact h.1 ▸ hacc
    | cons n rest =>
      rcases hr : netblock_request httpGet w n with ⟨err | response, w₁⟩
      · rw [queueLoop_error _ _ _ _ _ _ _ _ hr] at h
        simp at h
      · rw [queueLoop_ok _ _ _ _ _ _ _ _ hr] at h
        refine ih _ _ _ (hacc.append ?_) h
        exact foldl_scanToken_covered _ _ ⟨by simp [CidrMap.empty], by simp [CidrMap.empty]⟩

/-- C7, as stated, fails: a queued record `ip4:1.2.3.0/24 ip6:1.2.3.0/24` puts
the string `1.2.3.0/24` in `cidr_blocks_ipv4` and in `cidr_blocks_ipv6`, so a
string of `cidr_blocks` is a member of both lists, not of exactly one. -/
theorem getCidrBlocks_block_in_both_families :
    getCidrBlocks
        (recordsGet [("seed.example.com", "include:sub.example.com"),
          ("sub.example.com", "ip4:1.2.3.0/24 ip6:1.2.3.0/24")]) 1 () "seed.example.com" =
      some (Except.ok ⟨["1.2.3.0/24", "1.2.3.0/24"], ["1.2.3.0/24"], ["1.2.3.0/24"]⟩, ()) ∧
      "1.2.3.0/24" ∈ (["1.2.3.0/24", "1.2.3.0/24"] : List String) ∧
      "1.2.3.0/24" ∈ (["1.2.3.0/24"] : List String) :=
  ⟨rfl, by decide, by decide⟩

/-- C7, amended: for every result returned by `getCidrBlocks`, every string in
`cidr_blocks` is a member of at least one of `cidr_blocks_ipv4` and
`cidr_blocks_ipv6`, and every string in `cidr_blocks_ipv4` or
`cidr_blocks_ipv6` is a member of `cidr_blocks`. -/
theorem getCidrBlocks_blocks_covered {σ : Type} (httpGet : HttpGet σ) (fuel : Nat) (w w' : σ)
    (seed : String) (m : CidrMap)
    (h : getCidrBlocks httpGet fuel w seed = some (Except.ok m, w')) :
    (∀ x ∈ m.cidr_blocks, x ∈ m.cidr_blocks_ipv4 ∨ x ∈ m.cidr_blocks_ipv6) ∧
      (∀ x, x ∈ m.cidr_blocks_ipv4 ∨ x ∈ m.cidr_blocks_ipv6 → x ∈ m.cidr_blocks) := by
  unfold getCidrBlocks at h
  rcases hr : netblock_request httpGet w seed with ⟨err | response, w₁⟩
  · rw [hr] at h
    simp at h
  · rw [hr] at h
    exact queueLoop_covered _ _ _ _ _ _ _ ⟨by simp [CidrMap.empty], by simp [CidrMap.empty]⟩ h

/-- C7, amended, at the oracle `exampleGet` and the result of the breadth-first
example. -/
theorem getCidrBlocks_blocks_covered_witness :
    (∀ x ∈ ["1.2.3.0/24", "::1/128", "5.6.7.0/24"],
        x ∈ ["1.2.3.0/24", "5.6.7.0/24"] ∨ x ∈ ["::1/128"]) ∧
      (∀ x, x ∈ ["1.2.3.0/24", "5.6.7.0/24"] ∨ x ∈ ["::1/128"] →
        x ∈ ["1.2.3.0/24", "::1/128", "5.6.7.0/24"]) :=
  getCidrBlocks_blocks_covered exampleGet 2 () () "seed.example.com"
    ⟨["1.2.3.0/24", "::1/128", "5.6.7.0/24"], ["1.2.3.0/24", "5.6.7.0/24"], ["::1/128"]⟩ rfl

/-! ## The read operation -/

theorem netblock_request_error_head {σ : Type} (httpGet : HttpGet σ) (w w' : σ)
    (name err : String) (h : netblock_request httpGet w name = (Except.error err, w')) :
    err.data.head? = some 'E' := by
  rw [netblock_request_eq] at h
  simp only [Prod.mk.injEq] at h
  rcases ho : (httpGet w ("https://dns.google.com/resolve?name=" ++ name ++ "&type=TXT")).1 with
    e | e | text
  · rw [ho] at h
    simp only [HttpResult.toExcept, Except.error.injEq] at h
    rw [← h.1, String.data_append]
    rfl
  · rw [ho] at h
    simp only [HttpResult.toExcept, Except.error.injEq] at h
    rw [← h.1, String.data_append]
    rfl
  · rw [ho] at h
    simp [HttpResult.toExcept] at h

theorem queueLoop_error_head {σ : Type} (httpGet : HttpGet σ) (fuel : Nat) (w w' : σ)
    (q : List String) (acc : CidrMap) (err : String)
    (h : queueLoop httpGet fuel w q acc = some (Except.error err, w')) :
    err.data.head? = some 'E' := by
  induction fuel generalizing w q acc with
  | zero =>
    cases q with
    | nil => simp [queueLoop_nil] at h
    | cons n rest => simp [queueLoop] at h
  | succ fuel ih =>
    cases q with
    | nil => simp [queueLoop_nil] at h
    | cons n rest =>
      rcases hr : netblock_request httpGet w n with ⟨e | response, w₁⟩
      · rw [queueLoop_error _ _ _ _ _ _ _ _ hr] at h
        simp only [Option.some.injEq, Prod.mk.injEq, Except.error.injEq] at h
        rw [← h.1]
        exact netblock_request_error_head _ _ _ _ _ hr
      · rw [queueLoop_ok _ _ _ _ _ _ _ _ hr] at h
        exact ih _ _ _ h

theorem getCidrBlocks_error_head {σ : Type} (httpGet : HttpGet σ) (fuel : Nat) (w w' : σ)
    (netblock err : String)
    (h : getCidrBlocks httpGet fuel w netblock = some (Except.error err, w')) :
    err.data.head? = some 'E' := by
  unfold getCidrBlocks at h
  rcases hr : netblock_request httpGet w netblock with ⟨e | response, w₁⟩
  · rw [hr] at h
    simp only [Option.some.injEq, Prod.mk.injEq, Except.error.injEq] at h
    rw [← h.1]
    exact netblock_request_error_head _ _ _ _ _ hr
  · rw [hr] at h
    exact queueLoop_error_head _ _ _ _ _ _ _ h

theorem unknown_range_type_head (rt : String) :
    ("Unknown range_type: " ++ rt).data.head? = some 'U' := by
  rw [String.data_append]
  rfl

/-- C8: the read returns the error `Unknown range_type: <rt>` if and only if
the range type `rt` is none of `cloud-netblocks`, `google-netblocks`,
`restricted-googleapis`, `dns-forwarders`, `iap-forwarders`, `health-checkers`,
`legacy-health-checkers`; for `bogus` it returns `Unknown range_type: bogus`. -/
theorem Read_unknown_range_type {σ : Type} (httpGet : HttpGet σ) (fuel : Nat) (w : σ)
    (d : ResourceData) :
    ((∃ d' w', dataSourceGoogleNetblockIpRangesRead httpGet fuel w d =
          some (some ("Unknown range_type: " ++ d.Get_range_type), d', w')) ↔
        d.Get_range_type ∉ ["cloud-netblocks", "google-netblocks", "restricted-googleapis",
          "dns-forwarders", "iap-forwarders", "health-checkers", "legacy-health-checkers"]) ∧
      dataSourceGoogleNetblockIpRangesRead httpGet fuel w (ResourceData.fresh (some "bogus")) =
        some (some "Unknown range_type: bogus", ResourceData.fresh (some "bogus"), w) := by
  refine ⟨?_, rfl⟩
  have hdyn : ∀ netblock d' w', ¬ (match getCidrBlocks httpGet fuel w netblock with
      | none => none
      | some (Except.error err, w₁) => some (some err, d, w₁)
      | some (Except.ok CidrBlocks, w₁) =>
        some (none,
          ({ ({ ({ d with cidr_blocks := some CidrBlocks.cidr_blocks } : ResourceData) with
                cidr_blocks_ipv4 := some CidrBlocks.cidr_blocks_ipv4 } : ResourceData) with
              cidr_blocks_ipv6 := some CidrBlocks.cidr_blocks_ipv6 } : ResourceData).SetId
            ("netblock-ip-ranges-" ++ d.Get_range_type), w₁)) =
      some (some ("Unknown range_type: " ++ d.Get_range_type), d', w') := by
    intro netblock d' w' hm
    rcases hg : getCidrBlocks httpGet fuel w netblock with _ | ⟨err | m, w₁⟩
    · rw [hg] at hm
      simp at hm
    · rw [hg] at hm
      simp only [Option.some.injEq, Prod.mk.injEq] at hm
      have h1 := getCidrBlocks_error_head _ _ _ _ _ _ hg
      rw [hm.1, unknown_range_type_head] at h1
      simp at h1
    · rw [hg] at hm
      simp at hm
  unfold dataSourceGoogleNetblockIpRangesRead
  simp only []
  split_ifs with h1 h2 h3 h4 h5 h6 h7
  · simp only [h1, List.mem_cons, true_or, not_true_eq_false, iff_false, not_exists]
    intro d' w' hm
    exact hdyn _ d' w' (h1 ▸ hm)
  · simp only [h2, List.mem_cons, true_or, or_true, not_true_eq_false, iff_false, not_exists]
    intro d' w' hm
    exact hdyn _ d' w' (h2 ▸ hm)
  · simp [h3]
  · simp [h4]
  · simp [h5]
  · simp [h6]
  · simp [h7]
  · simp [h1, h2, h3, h4, h5, h6, h7]

/-- C9: for each static range type the read needs no fetch (for every oracle
the world, and with it any log of requests, is returned as it was, whatever
the fuel) and sets `cidr_blocks_ipv4` to exactly the listed blocks in the
listed order. -/
theorem Read_static_ipv4 {σ : Type} (httpGet : HttpGet σ) (fuel : Nat) (w : σ)
    (d : ResourceData) :
    dataSourceGoogleNetblockIpRangesRead httpGet fuel w
        { d with range_type := some "restricted-googleapis" } =
      some (none, ⟨some "restricted-googleapis", some ["199.36.153.4/30"],
        some ["199.36.153.4/30"], d.cidr_blocks_ipv6,
        some "netblock-ip-ranges-restricted-googleapis"⟩, w) ∧
    dataSourceGoogleNetblockIpRangesRead httpGet fuel w
        { d with range_type := some "dns-forwarders" } =
      some (none, ⟨some "dns-forwarders", some ["35.199.192.0/19"],
        some ["35.199.192.0/19"], d.cidr_blocks_ipv6,
        some "netblock-ip-ranges-dns-forwarders"⟩, w) ∧
    dataSourceGoogleNetblockIpRangesRead httpGet fuel w
        { d with range_type := some "iap-forwarders" } =
      some (none, ⟨some "iap-forwarders", some ["35.235.240.0/20"],
        some ["35.235.240.0/20"], d.cidr_blocks_ipv6,
        some "netblock-ip-ranges-iap-forwarders"⟩, w) ∧
    dataSourceGoogleNetblockIpRangesRead httpGet fuel w
        { d with range_type := some "health-checkers" } =
      some (none, ⟨some "health-checkers", some ["35.191.0.0/16", "130.211.0.0/22"],
        some ["35.191.0.0/16", "130.211.0.0/22"], d.cidr_blocks_ipv6,
        some "netblock-ip-ranges-health-checkers"⟩, w) ∧
    dataSourceGoogleNetblockIpRangesRead httpGet fuel w
        { d with range_type := some "legacy-health-checkers" } =
      some (none, ⟨some "legacy-health-checkers",
        some ["35.191.0.0/16", "209.85.152.0/22", "209.85.204.0/22"],
        some ["35.191.0.0/16", "209.85.152.0/22", "209.85.204.0/22"], d.cidr_blocks_ipv6,
        some "netblock-ip-ranges-legacy-health-checkers"⟩, w) :=
  ⟨rfl, rfl, rfl, rfl, rfl⟩

/-- C10: for every static range type, a read on fresh resource data succeeds
and leaves `cidr_blocks` equal to `cidr_blocks_ipv4`, element for element, and
`cidr_blocks_ipv6` unset. -/
theorem Read_static_fresh {σ : Type} (httpGet : HttpGet σ) (fuel : Nat) (w : σ) (rt : String)
    (hrt : rt ∈ ["restricted-googleapis", "dns-forwarders", "iap-forwarders", "health-checkers",
      "legacy-health-checkers"]) :
    ∃ blocks d', dataSourceGoogleNetblockIpRangesRead httpGet fuel w
          (ResourceData.fresh (some rt)) = some (none, d', w) ∧
      d'.cidr_blocks = some blocks ∧ d'.cidr_blocks_ipv4 = some blocks ∧
      d'.cidr_blocks_ipv6 = none := by
  simp only [List.mem_cons, List.mem_singleton, List.not_mem_nil, or_false] at hrt
  rcases hrt with rfl | rfl | rfl | rfl | rfl <;> exact ⟨_, _, rfl, rfl, rfl, rfl⟩

/-- C10, at `health-checkers` and the oracle `exampleGet`. -/
theorem Read_static_fresh_witness :
    ∃ blocks d', dataSourceGoogleNetblockIpRangesRead exampleGet 0 ()
          (ResourceData.fresh (some "health-checkers")) = some (none, d', ()) ∧
      d'.cidr_blocks = some blocks ∧ d'.cidr_blocks_ipv4 = some blocks ∧
      d'.cidr_blocks_ipv6 = none :=
  Read_static_fresh exampleGet 0 () "health-checkers" (by decide)

/-! ## Stripping `include:` -/

/-- C19: for every token `include:r`, removing the first occurrence of
`include:` strips the prefix, and exactly `r` is appended to the end of the
work queue, both in the loop over the seed record and in the loop over a
queued record (where the map is left as it was); `r` is arbitrary, so it may
contain `include:` and may be empty. -/
theorem include_token_appends_rest (q : List String) (acc : CidrMap) (r : String) :
    Replace ("include:" ++ r) "include:" "" 1 = r ∧
      seedToken q ("include:" ++ r) = q ++ [r] ∧
      scanToken (q, acc) ("include:" ++ r) = (q ++ [r], acc) ∧
      seedToken q "include:" = q ++ [""] ∧
      seedToken q "include:xinclude:y" = q ++ ["xinclude:y"] := by
  have hr : Replace ("include:" ++ r) "include:" "" 1 = r := Replace_append_left _ _ (by decide)
  have hi : HasPrefix ("include:" ++ r) "include:" = true := HasPrefix_append _ _
  have h4 : HasPrefix ("include:" ++ r) "ip4" = false := by
    simp [HasPrefix, List.isPrefixOf]
  have h6 : HasPrefix ("include:" ++ r) "ip6" = false := by
    simp [HasPrefix, List.isPrefixOf]
  refine ⟨hr, ?_, ?_, ?_, ?_⟩
  · simp [seedToken, hi, hr]
  · simp [scanToken, hi, hr, h4, h6]
  · have e : seedToken q "include:" = q ++ [Replace "include:" "include:" "" 1] := by
      simp [seedToken, show HasPrefix "include:" "include:" = true from by decide]
    rw [e, show Replace "include:" "include:" "" 1 = "" from by decide]
  · have e : seedToken q "include:xinclude:y" =
        q ++ [Replace "include:xinclude:y" "include:" "" 1] := by
      simp [seedToken, show HasPrefix "include:xinclude:y" "include:" = true from by decide]
    rw [e, show Replace "include:xinclude:y" "include:" "" 1 = "xinclude:y" from by decide]

/-! ## The read operation on dynamic range types, identifiers and failures -/

/-- C11: for the range type `cloud-netblocks` (also when it is the schema
default) a read on which `getCidrBlocks "_cloud-netblocks.googleusercontent.com"`
succeeds with map `m` sets `cidr_blocks`, `cidr_blocks_ipv4` and
`cidr_blocks_ipv6` to the three lists of `m`; for `google-netblocks` the same
holds with `getCidrBlocks "_spf.google.com"`. -/
theorem Read_dynamic_lists {σ : Type} (httpGet : HttpGet σ) (fuel : Nat) (w w' : σ)
    (d : ResourceData) (m : CidrMap) :
    (d.Get_range_type = "cloud-netblocks" →
        getCidrBlocks httpGet fuel w "_cloud-netblocks.googleusercontent.com" =
          some (Except.ok m, w') →
        dataSourceGoogleNetblockIpRangesRead httpGet fuel w d =
          some (none, ⟨d.range_type, some m.cidr_blocks, some m.cidr_blocks_ipv4,
            some m.cidr_blocks_ipv6, some "netblock-ip-ranges-cloud-netblocks"⟩, w')) ∧
      (d.Get_range_type = "google-netblocks" →
        getCidrBlocks httpGet fuel w "_spf.google.com" = some (Except.ok m, w') →
        dataSourceGoogleNetblockIpRangesRead httpGet fuel w d =
          some (none, ⟨d.range_type, some m.cidr_blocks, some m.cidr_blocks_ipv4,
            some m.cidr_blocks_ipv6, some "netblock-ip-ranges-google-netblocks"⟩, w')) := by
  constructor
  · intro hrt hg
    unfold dataSourceGoogleNetblockIpRangesRead
    simp only [hrt, if_true, hg]
    rfl
  · intro hrt hg
    unfold dataSourceGoogleNetblockIpRangesRead
    simp only [hrt, hg]
    rfl

/-- C11, at a table oracle that holds records for both seed names: the read
copies the three lists of the resolution. -/
theorem Read_dynamic_lists_witness :
    dataSourceGoogleNetblockIpRangesRead
        (recordsGet [("_cloud-netblocks.googleusercontent.com", "include:sub.example.com"),
          ("_spf.google.com", "include:sub.example.com"),
          ("sub.example.com", "ip4:1.2.3.0/24 ip6:::1/128")]) 1 ()
        (ResourceData.fresh none) =
      some (none, ⟨none, some ["1.2.3.0/24", "::1/128"], some ["1.2.3.0/24"],
        some ["::1/128"], some "netblock-ip-ranges-cloud-netblocks"⟩, ()) ∧
    dataSourceGoogleNetblockIpRangesRead
        (recordsGet [("_cloud-netblocks.googleusercontent.com", "include:sub.example.com"),
          ("_spf.google.com", "include:sub.example.com"),
          ("sub.example.com", "ip4:1.2.3.0/24 ip6:::1/128")]) 1 ()
        (ResourceData.fresh (some "google-netblocks")) =
      some (none, ⟨some "google-netblocks", some ["1.2.3.0/24", "::1/128"],
        some ["1.2.3.0/24"], some ["::1/128"], some "netblock-ip-ranges-google-netblocks"⟩, ()) :=
  ⟨(Read_dynamic_lists _ 1 () () (ResourceData.fresh none)
      ⟨["1.2.3.0/24", "::1/128"], ["1.2.3.0/24"], ["::1/128"]⟩).1 rfl rfl,
    (Read_dynamic_lists _ 1 () () (ResourceData.fresh (some "google-netblocks"))
      ⟨["1.2.3.0/24", "::1/128"], ["1.2.3.0/24"], ["::1/128"]⟩).2 rfl rfl⟩

theorem Read_outcome {σ : Type} (httpGet : HttpGet σ) (fuel : Nat) (w w' : σ)
    (d d' : ResourceData) (e : Option String)
    (h : dataSourceGoogleNetblockIpRangesRead httpGet fuel w d = some (e, d', w')) :
    (e = none ∧ d'.Id = some ("netblock-ip-ranges-" ++ d.Get_range_type)) ∨
      (∃ err, e = some err ∧ d' = d) := by
  unfold dataSourceGoogleNetblockIpRangesRead at h
  simp only [] at h
  split_ifs at h with h1 h2 h3 h4 h5 h6 h7
  · rcases hg : getCidrBlocks httpGet fuel w "_cloud-netblocks.googleusercontent.com" with
      _ | ⟨err | m, w₁⟩
    · rw [hg] at h; simp at h
    · rw [hg] at h
      simp only [Option.some.injEq, Prod.mk.injEq] at h
      exact Or.inr ⟨err, h.1.symm, h.2.1.symm⟩
    · rw [hg] at h
      simp only [Option.some.injEq, Prod.mk.injEq] at h
      refine Or.inl ⟨h.1.symm, ?_⟩
      rw [← h.2.1]
      rfl
  · rcases hg : getCidrBlocks httpGet fuel w "_spf.google.com" with _ | ⟨err | m, w₁⟩
    · rw [hg] at h; simp at h
    · rw [hg] at h
      simp only [Option.some.injEq, Prod.mk.injEq] at h
      exact Or.inr ⟨err, h.1.symm, h.2.1.symm⟩
    · rw [hg] at h
      simp only [Option.some.injEq, Prod.mk.injEq] at h
      refine Or.inl ⟨h.1.symm, ?_⟩
      rw [← h.2.1]
      rfl
  all_goals
    simp only [Option.some.injEq, Prod.mk.injEq] at h
    first
      | exact Or.inl ⟨h.1.symm, by rw [← h.2.1]; rfl⟩
      | exact Or.inr ⟨_, h.1.symm, h.2.1.symm⟩

/-- C12: whenever the read succeeds, the resource identifier afterwards is
exactly `"netblock-ip-ranges-" ++ rt`, where `rt` is the range type read from
the resource data. -/
theorem Read_sets_id {σ : Type} (httpGet : HttpGet σ) (fuel : Nat) (w w' : σ)
    (d d' : ResourceData)
    (h : dataSourceGoogleNetblockIpRangesRead httpGet fuel w d = some (none, d', w')) :
    d'.Id = some ("netblock-ip-ranges-" ++ d.Get_range_type) := by
  rcases Read_outcome _ _ _ _ _ _ _ h with h1 | ⟨err, h1, _⟩
  · exact h1.2
  · cases h1

/-- C12, at the static range type `dns-forwarders` and at the dynamic range
type `cloud-netblocks` resolved by a table oracle. -/
theorem Read_sets_id_witness :
    (some "netblock-ip-ranges-dns-forwarders" : Option String) =
        some ("netblock-ip-ranges-" ++ (ResourceData.fresh (some "dns-forwarders")).Get_range_type) ∧
      (some "netblock-ip-ranges-cloud-netblocks" : Option String) =
        some ("netblock-ip-ranges-" ++ (ResourceData.fresh none).Get_range_type) :=
  ⟨Read_sets_id exampleGet 0 () () (ResourceData.fresh (some "dns-forwarders"))
      ⟨some "dns-forwarders", some ["35.199.192.0/19"], some ["35.199.192.0/19"], none,
        some "netblock-ip-ranges-dns-forwarders"⟩ rfl,
    Read_sets_id
      (recordsGet [("_cloud-netblocks.googleusercontent.com", "include:sub.example.com"),
        ("sub.example.com", "ip4:1.2.3.0/24")]) 1 () () (ResourceData.fresh none)
      ⟨none, some ["1.2.3.0/24"], some ["1.2.3.0/24"], some [],
        some "netblock-ip-ranges-cloud-netblocks"⟩ rfl⟩

/-- C15: whenever the read returns an error, be it for an unknown range type
or for a failed fetch during a dynamic resolution, the resource data after the
call equals the resource data before the call: none of the three lists and no
identifier has been set. -/
theorem Read_error_leaves_data {σ : Type} (httpGet : HttpGet σ) (fuel : Nat) (w w' : σ)
    (d d' : ResourceData) (err : String)
    (h : dataSourceGoogleNetblockIpRangesRead httpGet fuel w d = some (some err, d', w')) :
    d' = d := by
  rcases Read_outcome _ _ _ _ _ _ _ h with h1 | ⟨_, _, h2⟩
  · cases h1.1
  · exact h2

/-- C15, at a dynamic range type whose second fetch fails, on resource data
that held a stale list and an identifier: the read returns the fetch error and
the data is as it was. -/
theorem Read_error_leaves_data_witness :
    dataSourceGoogleNetblockIpRangesRead
          (recordsGet [("_spf.google.com", "include:sub.example.com include:gone.example.com"),
            ("sub.example.com", "ip4:1.2.3.0/24")]) 2 ()
          ⟨some "google-netblocks", some ["10.0.0.0/8"], none, none, some "old"⟩ =
        some (some "Error from _cloud-netblocks: no such host",
          ⟨some "google-netblocks", some ["10.0.0.0/8"], none, none, some "old"⟩, ()) ∧
      (⟨some "google-netblocks", some ["10.0.0.0/8"], none, none, some "old"⟩ : ResourceData) =
        ⟨some "google-netblocks", some ["10.0.0.0/8"], none, none, some "old"⟩ :=
  ⟨rfl, Read_error_leaves_data
    (recordsGet [("_spf.google.com", "include:sub.example.com include:gone.example.com"),
      ("sub.example.com", "ip4:1.2.3.0/24")]) 2 () ()
    ⟨some "google-netblocks", some ["10.0.0.0/8"], none, none, some "old"⟩
    ⟨some "google-netblocks", some ["10.0.0.0/8"], none, none, some "old"⟩
    "Error from _cloud-netblocks: no such host" rfl⟩

/-! ## Order of the three lists -/

theorem queueLoop_preserves {σ : Type} (httpGet : HttpGet σ) (P : CidrMap → Prop)
    (hstep : ∀ st sp, P st.2 → P (scanToken st sp).2) (fuel : Nat) (w w' : σ)
    (q : List String) (acc m : CidrMap) (hacc : P acc)
    (h : queueLoop httpGet fuel w q acc = some (Except.ok m, w')) : P m := by
  have hfold : ∀ (toks : List String) st, P st.2 → P (toks.foldl scanToken st).2 := by
    intro toks
    induction toks with
    | nil => intro st hst; exact hst
    | cons sp t ih => intro st hst; exact ih _ (hstep st sp hst)
  induction fuel generalizing w q acc with
  | zero =>
    cases q with
    | nil =>
      rw [queueLoop_nil] at h
      simp only [Option.some.injEq, Prod.mk.injEq, Except.ok.injEq] at h
      exact h.1 ▸ hacc
    | cons n rest => simp [queueLoop] at h
  | succ fuel ih =>
    cases q with
    | nil =>
      rw [queueLoop_nil] at h
      simp only [Option.some.injEq, Prod.mk.injEq, Except.ok.injEq] at h
      exact h.1 ▸ hacc
    | cons n rest =>
      rcases hr : netblock_request httpGet w n with ⟨err | response, w₁⟩
      · rw [queueLoop_error _ _ _ _ _ _ _ _ hr] at h
        simp at h
      · rw [queueLoop, hr] at h
        exact ih _ _ _ (hfold _ (rest, acc) hacc) h

theorem scanToken_interleaved (st : List String × CidrMap) (sp : String)
    (h : st.2.Interleaved) : (scanToken st sp).2.Interleaved := by
  obtain ⟨h4, h6, hl⟩ := h
  unfold scanToken
  split_ifs
  · refine ⟨List.Sublist.append h4 (List.Sublist.refl _),
      h6.trans (List.sublist_append_left _ _), ?_⟩
    simp only [List.length_append, List.length_singleton, hl]
    omega
  · refine ⟨h4.trans (List.sublist_append_left _ _),
      List.Sublist.append h6 (List.Sublist.refl _), ?_⟩
    simp only [List.length_append, List.length_singleton, hl]
    omega
  · exact ⟨h4, h6, hl⟩
  · exact ⟨h4, h6, hl⟩

/-- C17: for every result returned by `getCidrBlocks`, `cidr_blocks_ipv4` and
`cidr_blocks_ipv6` are sublists (subsequences, order kept) of `cidr_blocks`,
and the length of `cidr_blocks` is the sum of their lengths. -/
theorem getCidrBlocks_interleaved {σ : Type} (httpGet : HttpGet σ) (fuel : Nat) (w w' : σ)
    (seed : String) (m : CidrMap)
    (h : getCidrBlocks httpGet fuel w seed = some (Except.ok m, w')) :
    m.cidr_blocks_ipv4.Sublist m.cidr_blocks ∧ m.cidr_blocks_ipv6.Sublist m.cidr_blocks ∧
      m.cidr_blocks.length = m.cidr_blocks_ipv4.length + m.cidr_blocks_ipv6.length := by
  unfold getCidrBlocks at h
  rcases hr : netblock_request httpGet w seed with ⟨err | response, w₁⟩
  · rw [hr] at h
    simp at h
  · rw [hr] at h
    have h0 : CidrMap.empty.Interleaved :=
      ⟨List.Sublist.refl _, List.Sublist.refl _, rfl⟩
    exact queueLoop_preserves httpGet CidrMap.Interleaved scanToken_interleaved _ _ _ _ _ _ h0 h

/-- C17, at the oracle `exampleGet` and the result of the breadth-first
example. -/
theorem getCidrBlocks_interleaved_witness :
    (["1.2.3.0/24", "5.6.7.0/24"] : List String).Sublist ["1.2.3.0/24", "::1/128", "5.6.7.0/24"] ∧
      (["::1/128"] : List String).Sublist ["1.2.3.0/24", "::1/128", "5.6.7.0/24"] ∧
      (["1.2.3.0/24", "::1/128", "5.6.7.0/24"] : List String).length =
        (["1.2.3.0/24", "5.6.7.0/24"] : List String).length + (["::1/128"] : List String).length :=
  getCidrBlocks_interleaved exampleGet 2 () () "seed.example.com"
    ⟨["1.2.3.0/24", "::1/128", "5.6.7.0/24"], ["1.2.3.0/24", "5.6.7.0/24"], ["::1/128"]⟩ rfl

/-! ## A seed record without includes -/

theorem getCidrBlocks_of_body {σ : Type} (httpGet : HttpGet σ) (fuel : Nat) (w w₁ : σ)
    (seed text : String) (h : httpGet w (requestUrl seed) = (HttpResult.body text, w₁)) :
    getCidrBlocks httpGet fuel w seed =
      queueLoop httpGet fuel w₁ (seedIncludes text) CidrMap.empty := by
  unfold requestUrl at h
  rw [getCidrBlocks, netblock_request_eq, h]
  rfl

theorem seedIncludes_eq_nil (text : String)
    (hno : ∀ sp ∈ Split text " ", HasPrefix sp "include:" = false) : seedIncludes text = [] := by
  unfold seedIncludes
  rw [foldl_seedToken, List.nil_append, List.filter_eq_nil_iff.2, List.map_nil]
  intro sp hsp
  simp [isInclude, hno sp hsp]

/-- C18: if the fetch of the seed gives a record none of whose tokens starts
with `include:`, `getCidrBlocks` returns, for any fuel, the map with three
empty lists and no error; on the logging oracle the log then holds the seed
request and nothing else, so exactly one fetch was made.  The empty record is
such a record. -/
theorem getCidrBlocks_no_includes {σ : Type} (httpGet : HttpGet σ) (fuel : Nat) (w w₁ : σ)
    (seed text : String) (hfetch : httpGet w (requestUrl seed) = (HttpResult.body text, w₁))
    (hno : ∀ sp ∈ Split text " ", HasPrefix sp "include:" = false) :
    getCidrBlocks httpGet fuel w seed = some (Except.ok ⟨[], [], []⟩, w₁) ∧
      getCidrBlocks (logged httpGet) fuel (w, []) seed =
        some (Except.ok ⟨[], [], []⟩, (w₁, [(requestUrl seed, HttpResult.body text)])) := by
  constructor
  · rw [getCidrBlocks_of_body _ _ _ _ _ _ hfetch, seedIncludes_eq_nil _ hno, queueLoop_nil]
    rfl
  · have hl : logged httpGet (w, []) (requestUrl seed) =
        (HttpResult.body text, (w₁, [(requestUrl seed, HttpResult.body text)])) := by
      simp [logged, hfetch]
    rw [getCidrBlocks_of_body _ _ _ _ _ _ hl, seedIncludes_eq_nil _ hno, queueLoop_nil]
    rfl

/-- C18, at a seed whose record is empty and at a seed whose record holds only
`ip4:`/`ip6:` tokens. -/
theorem getCidrBlocks_no_includes_witness :
    getCidrBlocks (logged (recordsGet [("seed.example.com", "")])) 0 ((), [])
        "seed.example.com" =
      some (Except.ok ⟨[], [], []⟩,
        ((), [(requestUrl "seed.example.com", HttpResult.body "")])) ∧
    getCidrBlocks (recordsGet [("seed.example.com", "ip4:1.2.3.0/24 ip6:::1/128")]) 0 ()
        "seed.example.com" = some (Except.ok ⟨[], [], []⟩, ()) :=
  ⟨(getCidrBlocks_no_includes (recordsGet [("seed.example.com", "")]) 0 () ()
      "seed.example.com" "" rfl (by decide)).2,
    (getCidrBlocks_no_includes
      (recordsGet [("seed.example.com", "ip4:1.2.3.0/24 ip6:::1/128")]) 0 () ()
      "seed.example.com" "ip4:1.2.3.0/24 ip6:::1/128" rfl (by decide)).1⟩

/-! ## Cycles of includes -/

theorem netblock_request_of_records {σ : Type} (httpGet : HttpGet σ) (records : String → String)
    (hrec : ∀ w name, (netblock_request httpGet w name).1 = Except.ok (records name))
    (w : σ) (name : String) :
    netblock_request httpGet w name =
      (Except.ok (records name), (netblock_request httpGet w name).2) :=
  Prod.ext (hrec w name) rfl

theorem live_step {α : Type} (R : α → α → Prop) (a : α)
    (h : ∃ c, Relation.ReflTransGen R a c ∧ Relation.TransGen R c c) :
    ∃ b, R a b ∧ ∃ c, Relation.ReflTransGen R b c ∧ Relation.TransGen R c c := by
  obtain ⟨c, hac, hcc⟩ := h
  rcases Relation.ReflTransGen.cases_head hac with rfl | ⟨b, hab, hbc⟩
  · obtain ⟨b, hab, hba⟩ := Relation.TransGen.head'_iff.1 hcc
    exact ⟨b, hab, a, hba, hcc⟩
  · exact ⟨b, hab, c, hbc, hcc⟩

theorem queueLoop_live {σ : Type} (httpGet : HttpGet σ) (records : String → String)
    (hrec : ∀ w name, (netblock_request httpGet w name).1 = Except.ok (records name))
    (fuel : Nat) (w : σ) (q : List String) (acc : CidrMap)
    (hq : ∃ x ∈ q, ∃ c, Relation.ReflTransGen (Includes records) x c ∧
      Relation.TransGen (Includes records) c c) :
    queueLoop httpGet fuel w q acc = none := by
  induction fuel generalizing w q acc with
  | zero =>
    cases q with
    | nil => obtain ⟨x, hx, _⟩ := hq; cases hx
    | cons n rest => rfl
  | succ fuel ih =>
    cases q with
    | nil => obtain ⟨x, hx, _⟩ := hq; cases hx
    | cons n rest =>
      rw [queueLoop_ok _ _ _ _ _ _ _ _ (netblock_request_of_records httpGet records hrec w n)]
      apply ih
      obtain ⟨x, hx, hlive⟩ := hq
      rcases List.mem_cons.1 hx with rfl | hx
      · obtain ⟨b, hab, hb⟩ := live_step _ _ hlive
        exact ⟨b, List.mem_append_right _ hab, hb⟩
      · exact ⟨x, List.mem_append_left _ hx, hlive⟩

/-- C13, as stated, fails: a failing fetch ends the loop although a fetched
record lies on a cycle.  With the seed record `include:loop.example.com` and the
record `include:loop.example.com include:gone.example.com` for
`loop.example.com`, that record is fetched twice, the queue becomes
`gone.example.com, loop.example.com, gone.example.com`, and the third iteration
returns the error of the fetch of `gone.example.com`. -/
theorem getCidrBlocks_cycle_ends_on_error :
    getCidrBlocks
        (recordsGet [("seed.example.com", "include:loop.example.com"),
          ("loop.example.com", "include:loop.example.com include:gone.example.com")]) 3 ()
        "seed.example.com" =
      some (Except.error "Error from _cloud-netblocks: no such host", ()) ∧
      "loop.example.com" ∈
        recordIncludes "include:loop.example.com include:gone.example.com" :=
  ⟨rfl, by decide⟩

/-- C13, amended: there is no cycle guard.  For every oracle on which every
fetch succeeds, with the record of each name given by `records`, if a name `a`
that the seed record puts on the work queue reaches, along `include:`
references, a name `c` that lies on a cycle of `include:` references (`c`
includes itself, directly or through other names), then the work-queue loop
never ends: for every bound `fuel` on the number of iterations `getCidrBlocks`
has not returned, which happens only when the queue is still non-empty after
`fuel` iterations. -/
theorem getCidrBlocks_cycle_diverges {σ : Type} (httpGet : HttpGet σ)
    (records : String → String)
    (hrec : ∀ w name, (netblock_request httpGet w name).1 = Except.ok (records name))
    (seed a c : String) (ha : a ∈ seedIncludes (records seed))
    (hreach : Relation.ReflTransGen (Includes records) a c)
    (hcyc : Relation.TransGen (Includes records) c c) (fuel : Nat) (w : σ) :
    getCidrBlocks httpGet fuel w seed = none := by
  rw [getCidrBlocks, netblock_request_of_records httpGet records hrec w seed]
  exact queueLoop_live httpGet records hrec _ _ _ _ ⟨a, ha, c, hreach, hcyc⟩

/-- C13, amended, at the oracle `tableGet loopTable`, where `loop.example.com`
includes itself: a thousand iterations do not end the loop. -/
theorem getCidrBlocks_cycle_diverges_witness :
    getCidrBlocks (tableGet loopTable) 1000 () "seed.example.com" = none :=
  getCidrBlocks_cycle_diverges (tableGet loopTable) (fun name => loopTable (requestUrl name))
    (fun _ _ => rfl) "seed.example.com" "loop.example.com" "loop.example.com" (by decide)
    Relation.ReflTransGen.refl
    (Relation.TransGen.single (show "loop.example.com" ∈
      recordIncludes "ip4:1.2.3.0/24 include:loop.example.com" from by decide)) 1000 ()

/-! ## Termination on acyclic includes -/

theorem fetchCount_cons_inv {records : String → String} {a : String} {rest : List String}
    {k : Nat} (h : FetchCount records (a :: rest) k) :
    ∃ k₁ k₂, FetchCount records (recordIncludes (records a)) k₁ ∧ FetchCount records rest k₂ ∧
      k = k₁ + k₂ + 1 := by
  cases h with
  | cons _ _ k₁ k₂ h₁ h₂ => exact ⟨k₁, k₂, h₁, h₂, rfl⟩

theorem fetchCount_append {records : String → String} {q₁ q₂ : List String} {k₁ k₂ : Nat}
    (h₁ : FetchCount records q₁ k₁) (h₂ : FetchCount records q₂ k₂) :
    FetchCount records (q₁ ++ q₂) (k₁ + k₂) := by
  induction h₁ with
  | nil => simpa using h₂
  | cons a rest j₁ j₂ hc _ _ ih =>
    have h := FetchCount.cons a (rest ++ q₂) j₁ (j₂ + k₂) hc ih
    have e : j₁ + (j₂ + k₂) + 1 = j₁ + j₂ + 1 + k₂ := by omega
    rw [e] at h
    exact h

theorem fetchCount_of_forall {records : String → String} (q : List String)
    (h : ∀ x ∈ q, ∃ k, FetchCount records [x] k) : ∃ k, FetchCount records q k := by
  induction q with
  | nil => exact ⟨0, FetchCount.nil⟩
  | cons x rest ih =>
    obtain ⟨kx, hx⟩ := h x (List.mem_cons_self _ _)
    obtain ⟨kr, hr⟩ := ih (fun y hy => h y (List.mem_cons_of_mem _ hy))
    exact ⟨kx + kr, fetchCount_append hx hr⟩

theorem fetchCount_of_acc {records : String → String} (a : String)
    (h : Acc (fun b a => Includes records a b) a) : ∃ k, FetchCount records [a] k := by
  induction h with
  | intro a _ ih =>
    obtain ⟨k, hk⟩ := fetchCount_of_forall (recordIncludes (records a)) (fun b hb => ih b hb)
    exact ⟨k + 0 + 1, FetchCount.cons a [] k 0 hk FetchCount.nil⟩

theorem queueLoop_of_fetchCount {σ : Type} (httpGet : HttpGet σ) (records : String → String)
    (hrec : ∀ w name, (netblock_request httpGet w name).1 = Except.ok (records name))
    (fuel : Nat) (q : List String) (k : Nat) (hk : FetchCount records q k) (hle : k ≤ fuel)
    (w : σ) (acc : CidrMap) :
    ∃ m w', queueLoop httpGet fuel w q acc = some (Except.ok m, w') := by
  induction fuel generalizing q k w acc with
  | zero =>
    cases q with
    | nil => exact ⟨acc, w, queueLoop_nil _ _ _ _⟩
    | cons a rest =>
      obtain ⟨k₁, k₂, _, _, e⟩ := fetchCount_cons_inv hk
      omega
  | succ fuel ih =>
    cases q with
    | nil => exact ⟨acc, w, queueLoop_nil _ _ _ _⟩
    | cons a rest =>
      obtain ⟨k₁, k₂, h₁, h₂, e⟩ := fetchCount_cons_inv hk
      rw [queueLoop_ok _ _ _ _ _ _ _ _ (netblock_request_of_records httpGet records hrec w a)]
      exact ih _ _ (fetchCount_append h₂ h₁) (by omega) _ _

theorem queueLoop_mono {σ : Type} (httpGet : HttpGet σ) (fuel extra : Nat) (w : σ)
    (q : List String) (acc : CidrMap) (r : Except String CidrMap × σ)
    (h : queueLoop httpGet fuel w q acc = some r) :
    queueLoop httpGet (fuel + extra) w q acc = some r := by
  induction fuel generalizing w q acc with
  | zero =>
    cases q with
    | nil => rw [queueLoop_nil] at h ⊢; exact h
    | cons n rest => simp [queueLoop] at h
  | succ fuel ih =>
    cases q with
    | nil => rw [queueLoop_nil] at h ⊢; exact h
    | cons n rest =>
      have e : fuel + 1 + extra = (fuel + extra) + 1 := by omega
      rw [e]
      rcases hr : netblock_request httpGet w n with ⟨err | response, w₁⟩
      · rw [queueLoop_error _ _ _ _ _ _ _ _ hr] at h ⊢
        exact h
      · rw [queueLoop_ok _ _ _ _ _ _ _ _ hr] at h ⊢
        exact ih _ _ _ h

/-- C16: for every oracle on which every fetch succeeds, with the record of
each name given by `records`, if the `include:` relation is well-founded below
every name that the seed record puts on the work queue (no cycle is reachable
from the seed), then there is a number of iterations after which the queue is
empty: from any world `getCidrBlocks` returns a map without error, the same for
every larger bound.  A name reachable along several paths is fetched once per
path: in the diamond where `a` and `b` both include `c`, the requests are those
for the seed, `a`, `b`, `c` and `c` again, and the block of `c` is there twice. -/
theorem getCidrBlocks_terminates_acyclic {σ : Type} (httpGet : HttpGet σ)
    (records : String → String)
    (hrec : ∀ w name, (netblock_request httpGet w name).1 = Except.ok (records name))
    (seed : String)
    (hacc : ∀ a ∈ seedIncludes (records seed), Acc (fun b a => Includes records a b) a) :
    (∃ fuel, ∀ w, ∃ m w', ∀ fuel', fuel ≤ fuel' →
        getCidrBlocks httpGet fuel' w seed = some (Except.ok m, w')) ∧
      (getCidrBlocks (logged (tableGet diamondTable)) 4 ((), []) "seed.example.com").map
          (fun r => (r.1, r.2.2.map Prod.fst)) =
        some (Except.ok ⟨["::1/128", "1.2.3.0/24", "1.2.3.0/24"], ["1.2.3.0/24", "1.2.3.0/24"],
            ["::1/128"]⟩,
          [requestUrl "seed.example.com", requestUrl "a.example.com",
            requestUrl "b.example.com", requestUrl "c.example.com",
            requestUrl "c.example.com"]) := by
  refine ⟨?_, rfl⟩
  obtain ⟨k, hk⟩ := fetchCount_of_forall (seedIncludes (records seed))
    (fun a ha => fetchCount_of_acc a (hacc a ha))
  refine ⟨k, fun w => ?_⟩
  obtain ⟨m, w', hm⟩ := queueLoop_of_fetchCount httpGet records hrec k _ k hk (Nat.le_refl k)
    (netblock_request httpGet w seed).2 CidrMap.empty
  refine ⟨m, w', fun fuel' hle => ?_⟩
  obtain ⟨extra, rfl⟩ : ∃ extra, fuel' = k + extra := ⟨fuel' - k, by omega⟩
  rw [getCidrBlocks, netblock_request_of_records httpGet records hrec w seed]
  exact queueLoop_mono _ _ _ _ _ _ _ hm

/-- C16, at the diamond `tableGet diamondTable`: the include relation below `a`
and `b` is well-founded, and resolution of the seed ends. -/
theorem getCidrBlocks_terminates_acyclic_witness :
    ∃ fuel, ∀ w, ∃ m w', ∀ fuel', fuel ≤ fuel' →
      getCidrBlocks (tableGet diamondTable) fuel' w "seed.example.com" =
        some (Except.ok m, w') := by
  have hc : Acc (fun b a => Includes (fun name => diamondTable (requestUrl name)) a b)
      "c.example.com" := by
    refine Acc.intro _ (fun b hb => ?_)
    have : b ∈ ([] : List String) := hb
    cases this
  have hchild : ∀ a, recordIncludes (diamondTable (requestUrl a)) = ["c.example.com"] →
      Acc (fun b a => Includes (fun name => diamondTable (requestUrl name)) a b) a := by
    intro a hrecord
    refine Acc.intro _ (fun b hb => ?_)
    have hb' : b ∈ recordIncludes (diamondTable (requestUrl a)) := hb
    rw [hrecord, List.mem_singleton] at hb'
    rw [hb']
    exact hc
  refine (getCidrBlocks_terminates_acyclic (tableGet diamondTable)
    (fun name => diamondTable (requestUrl name)) (fun _ _ => rfl) "seed.example.com" ?_).1
  intro a ha
  have ha' : a ∈ ["a.example.com", "b.example.com"] := ha
  simp only [List.mem_cons, List.mem_singleton, List.not_mem_nil, or_false] at ha'
  rcases ha' with rfl | rfl
  · exact hchild _ (by decide)
  · exact hchild _ (by decide)

/-! ## Repeated names -/

theorem queueLoop_fetches {σ : Type} (httpGet : HttpGet σ) (fuel : Nat) (w w' : σ)
    (log₀ log : List (String × HttpResult)) (q : List String) (acc m : CidrMap)
    (h : queueLoop (logged httpGet) fuel (w, log₀) q acc = some (Except.ok m, (w', log))) :
    ∃ ext : List (String × String),
      log = log₀ ++ ext.map (fun e => (requestUrl e.1, HttpResult.body e.2)) ∧
      ext.map Prod.fst = q ++ ext.flatMap (fun e => recordIncludes e.2) ∧
      m = ext.foldl (fun b e => b.append (recordBlocks e.2)) acc := by
  induction fuel generalizing w log₀ q acc with
  | zero =>
    cases q with
    | nil =>
      rw [queueLoop_nil] at h
      simp only [Option.some.injEq, Prod.mk.injEq, Except.ok.injEq] at h
      exact ⟨[], by simp [h.2.2], by simp, by simp [h.1]⟩
    | cons n rest => simp [queueLoop] at h
  | succ fuel ih =>
    cases q with
    | nil =>
      rw [queueLoop_nil] at h
      simp only [Option.some.injEq, Prod.mk.injEq, Except.ok.injEq] at h
      exact ⟨[], by simp [h.2.2], by simp, by simp [h.1]⟩
    | cons n rest =>
      have hr := netblock_request_eq (logged httpGet) (w, log₀) n
      rw [show "https://dns.google.com/resolve?name=" ++ n ++ "&type=TXT" = requestUrl n from rfl]
        at hr
      simp only [logged] at hr
      rcases ho : (httpGet w (requestUrl n)).1 with err | err | text
      · rw [ho] at hr
        rw [queueLoop_error _ _ _ _ _ _ _ _ hr] at h
        simp at h
      · rw [ho] at hr
        rw [queueLoop_error _ _ _ _ _ _ _ _ hr] at h
        simp at h
      · rw [ho] at hr
        rw [queueLoop_ok _ _ _ _ _ _ _ _ hr] at h
        obtain ⟨ext, hlog, hnames, hm⟩ := ih _ _ _ _ h
        refine ⟨(n, text) :: ext, ?_, ?_, ?_⟩
        · simp [hlog]
        · simp [hnames]
        · simpa using hm

/-- C14: includes are not deduplicated and repeats are kept.  On the logging
oracle, whenever `getCidrBlocks` returns a map, the requests after the seed
request are, in order, one for each name that the seed record or a fetched
record put on the work queue (`ext` lists them with the record each fetch
gave), so a name put on the queue `k` times is fetched `k` times; and the map
is the concatenation of the blocks of these records, one copy for each fetch.
With the seed record `include:a.example.com include:a.example.com` and the
record `ip4:1.2.3.0/24` for `a.example.com`, `cidr_blocks_ipv4` and `cidr_blocks`
are both `["1.2.3.0/24", "1.2.3.0/24"]`. -/
theorem getCidrBlocks_repeats_kept {σ : Type} (httpGet : HttpGet σ) (fuel : Nat) (w w' : σ)
    (seed : String) (m : CidrMap) (log : List (String × HttpResult))
    (h : getCidrBlocks (logged httpGet) fuel (w, []) seed = some (Except.ok m, (w', log))) :
    (∃ (text : String) (ext : List (String × String)),
        log = (requestUrl seed, HttpResult.body text) ::
          ext.map (fun e => (requestUrl e.1, HttpResult.body e.2)) ∧
        ext.map Prod.fst = seedIncludes text ++ ext.flatMap (fun e => recordIncludes e.2) ∧
        (∀ name, (ext.map Prod.fst).count name =
          (seedIncludes text ++ ext.flatMap (fun e => recordIncludes e.2)).count name) ∧
        m = ext.foldl (fun b e => b.append (recordBlocks e.2)) CidrMap.empty) ∧
      getCidrBlocks
          (recordsGet [("seed.example.com", "include:a.example.com include:a.example.com"),
            ("a.example.com", "ip4:1.2.3.0/24")]) 2 () "seed.example.com" =
        some (Except.ok ⟨["1.2.3.0/24", "1.2.3.0/24"], ["1.2.3.0/24", "1.2.3.0/24"], []⟩, ()) := by
  refine ⟨?_, rfl⟩
  have hr := netblock_request_eq (logged httpGet) (w, []) seed
  rw [show "https://dns.google.com/resolve?name=" ++ seed ++ "&type=TXT" = requestUrl seed from rfl]
    at hr
  simp only [logged, List.nil_append] at hr
  rw [getCidrBlocks, hr] at h
  rcases ho : (httpGet w (requestUrl seed)).1 with err | err | text
  · rw [ho] at h
    simp [HttpResult.toExcept] at h
  · rw [ho] at h
    simp [HttpResult.toExcept] at h
  · rw [ho] at h
    simp only [HttpResult.toExcept] at h
    obtain ⟨ext, hlog, hnames, hm⟩ := queueLoop_fetches _ _ _ _ _ _ _ _ _ h
    exact ⟨text, ext, by simpa using hlog, hnames, fun name => by rw [hnames]; rfl, hm⟩

/-- C14, at the seed record `include:a.example.com include:a.example.com` on the
logging oracle: `a.example.com` is requested twice and its block is there
twice. -/
theorem getCidrBlocks_repeats_kept_witness :
    ∃ (text : String) (ext : List (String × String)),
      [(requestUrl "seed.example.com",
            HttpResult.body "include:a.example.com include:a.example.com"),
          (requestUrl "a.example.com", HttpResult.body "ip4:1.2.3.0/24"),
          (requestUrl "a.example.com", HttpResult.body "ip4:1.2.3.0/24")] =
        (requestUrl "seed.example.com", HttpResult.body text) ::
          ext.map (fun e => (requestUrl e.1, HttpResult.body e.2)) ∧
      ext.map Prod.fst = seedIncludes text ++ ext.flatMap (fun e => recordIncludes e.2) ∧
      (∀ name, (ext.map Prod.fst).count name =
        (seedIncludes text ++ ext.flatMap (fun e => recordIncludes e.2)).count name) ∧
      (⟨["1.2.3.0/24", "1.2.3.0/24"], ["1.2.3.0/24", "1.2.3.0/24"], []⟩ : CidrMap) =
        ext.foldl (fun b e => b.append (recordBlocks e.2)) CidrMap.empty :=
  (getCidrBlocks_repeats_kept
    (recordsGet [("seed.example.com", "include:a.example.com include:a.example.com"),
      ("a.example.com", "ip4:1.2.3.0/24")]) 2 () () "seed.example.com"
    ⟨["1.2.3.0/24", "1.2.3.0/24"], ["1.2.3.0/24", "1.2.3.0/24"], []⟩
    [(requestUrl "seed.example.com",
        HttpResult.body "include:a.example.com include:a.example.com"),
      (requestUrl "a.example.com", HttpResult.body "ip4:1.2.3.0/24"),
      (requestUrl "a.example.com", HttpResult.body "ip4:1.2.3.0/24")] rfl).1

end Netblock
